import Mathlib

/-!
# Verification of `bedrock-data-hub-storage`

A shallow embedding of the data-hub storage module: the document / config /
chunk stores with their MongoDB-backed operations (`lib/storage.js`), the
query translation and zcap helpers of the HTTP layer (`part_006`), and the
128-bit multibase-base58 identifier codec.

Conventions:
* JS strings are `List Char` (`JStr`); JS numbers that the code treats as
  integers are `Int` (the code's `Number.isInteger` checks always hold for
  our inputs, and the explicit `< 0` checks are kept).
* Thrown exceptions are the `.error` side of `Except JsErr _`; mutating
  operations return their store alongside, so a thrown error leaves the
  store unchanged by construction.
* The MongoDB seam is modelled per collection: a conditional `update` with
  `upsert: true` modifies every matching record, and when nothing matches it
  inserts the record built from the query's equality fields plus the
  `$set` / `$setOnInsert` operators; unique indexes (as declared in
  `storage.js`'s `createIndexes`) reject such an insert with a duplicate-key
  error, and the reported `n` counts matched-or-upserted records.
-/

set_option maxRecDepth 4000

namespace DataHub

/-- JS strings are modelled as lists of characters. -/
abbrev JStr := List Char

/-- Convert a Lean string literal into a modelled JS string. -/
def js (s : String) : JStr := s.toList

/-- `database.hash` (bedrock-mongodb): a stable one-way digest applied to
caller-supplied identifiers before they are used as lookup keys. The code
relies only on it being deterministic and collision-free, so it is modelled
as an injective tagging function. -/
def dbHash (s : JStr) : JStr := '#' :: s

theorem dbHash_inj {a b : JStr} (h : dbHash a = dbHash b) : a = b := by
  simpa [dbHash] using h

/-! ## Base58 codec (`bs58` npm package, Bitcoin alphabet) -/

/-- The base58 alphabet used by `bs58`. -/
def alphabet : JStr :=
  "123456789ABCDEFGHJKLMNPQRSTUVWXYZabcdefghijkmnopqrstuvwxyz".toList

/-- Digit value to alphabet character. -/
def digitToChar (d : Nat) : Char := alphabet.getD d '?'

/-- Alphabet character back to digit value (`none` for a char outside the
alphabet, on which `bs58.decode` throws). -/
def charToDigit (c : Char) : Option Nat := alphabet.findIdx? (fun a => a = c)

/-- Little-endian base-`b` digits of `n`, with explicit fuel for structural
recursion; fuel `n+1` always suffices because `n / b < n` for `b ≥ 2`. -/
def leDigits (b : Nat) : Nat → Nat → List Nat
  | 0, _ => []
  | fuel+1, n => if n = 0 then [] else n % b :: leDigits b fuel (n / b)

/-- Little-endian base-`b` digits of `n` (empty for `n = 0`). -/
def natDigitsLE (b n : Nat) : List Nat := leDigits b (n + 1) n

/-- Value of a little-endian digit list. -/
def ofDigitsLE (b : Nat) (ds : List Nat) : Nat :=
  ds.foldr (fun d acc => d + b * acc) 0

/-- Big-endian minimal byte representation of `n`. -/
def natToBytesBE (n : Nat) : List Nat := (natDigitsLE 256 n).reverse

/-- Big-endian value of a byte list. -/
def bytesToNat (bs : List Nat) : Nat := bs.foldl (fun acc x => acc * 256 + x) 0

/-- `bs58.encode`: one `'1'` per leading zero byte, then the base-58 digits
of the big-endian value, most significant first. -/
def b58encode (bs : List Nat) : JStr :=
  List.replicate (bs.takeWhile (fun x => x = 0)).length '1' ++
    ((natDigitsLE 58 (bytesToNat bs)).reverse.map digitToChar)

/-- Option-valued traversal (the effect of mapping a fallible function over
a list, failing as soon as one element fails). -/
def mapOpt (f : α → Option β) : List α → Option (List β)
  | [] => some []
  | a :: l =>
    match f a, mapOpt f l with
    | some b, some r => some (b :: r)
    | _, _ => none

/-- `bs58.decode`: `none` models the exception thrown on a character outside
the alphabet; otherwise one zero byte per leading `'1'`, then the minimal
big-endian bytes of the base-58 value of the whole string. -/
def b58decode (s : JStr) : Option (List Nat) :=
  match mapOpt charToDigit s with
  | none => none
  | some ds =>
    some (List.replicate (s.takeWhile (fun c => c = '1')).length 0 ++
      natToBytesBE (ds.foldl (fun acc d => acc * 58 + d) 0))

/-- `_assert128BitId` (storage.js and part_006): `true` when the identifier
is accepted, `false` when the function throws. The identifier must start
with `'z'` and the base58 decoding of the rest must be 18 bytes beginning
`0x00 0x10`. -/
def assert128BitId (id : JStr) : Bool :=
  match b58decode (id.drop 1) with
  | none => false
  | some buf =>
    decide (id.head? = some 'z') && decide (buf.length = 18) &&
      decide (buf.getD 0 1 = 0) && decide (buf.getD 1 0 = 16)

/-- `_generateRandom` (part_006), parameterized by the 16 random bytes it
draws: the multibase-base58 encoding of `0x00 0x10 <bytes>`. -/
def generateRandom (bytes : List Nat) : JStr :=
  'z' :: b58encode (0 :: 16 :: bytes)

/-- Flip bit `j` of the byte at position `i` of a byte buffer. -/
def flipBit (bs : List Nat) (i j : Nat) : List Nat :=
  bs.set i ((bs.getD i 0) ^^^ (2 ^ j))

/-! ## Data model -/

/-- A JSON scalar as it appears in request bodies and config fields. -/
inductive Jval where
  | str (s : JStr)
  | num (n : Int)
  | boolean (b : Bool)
  | nullv
deriving DecidableEq, Repr

/-- A key reference `{id, type}`. -/
structure KeyRef where
  id : JStr
  type : JStr
deriving DecidableEq, Repr

/-- A blinded-index attribute `{name, value, unique?}`; `unique` is the
truthiness of `attribute.unique`. -/
structure Attribute where
  name : JStr
  value : JStr
  unique : Bool
deriving DecidableEq, Repr

/-- An entry of `doc.indexed`; `attributes` is `none` when the JS field is
absent (the code reads `entry.attributes || []`). -/
structure IndexedEntry where
  hmac : KeyRef
  sequence : Int
  attributes : Option (List Attribute)
deriving DecidableEq, Repr

/-- A data hub document as supplied by clients; `jwe` is the opaque
ciphertext envelope. -/
structure Doc where
  id : JStr
  sequence : Int
  jwe : JStr
  indexed : Option (List IndexedEntry)
deriving DecidableEq, Repr

/-- Record metadata. -/
structure Meta where
  created : Int
  updated : Int
deriving DecidableEq, Repr

/-- A record of the `dataHubDoc` collection. `dataHubId` and `id` hold
`database.hash` digests. -/
structure DocRecord where
  dataHubId : JStr
  id : JStr
  meta : Meta
  doc : Doc
  uniqueAttributes : Option (List JStr)
deriving DecidableEq, Repr

abbrev DocStore := List DocRecord

/-- A thrown JS error, to the extent the embedded code distinguishes them:
`BedrockError`s carry `name` and `httpStatusCode`; `dupKey` is the raw
MongoDB duplicate-key error (`database.isDuplicateError`); `typeErr` and
`plainErr` stand for `TypeError` and the plain `Error` of storage.js's
`_assert128BitId`. -/
inductive JsErr where
  | bedrock (name : String) (status : Nat)
  | dupKey
  | typeErr
  | plainErr
deriving DecidableEq, Repr

/-! ## `dataHubDoc` operations (storage.js) -/

/-- `_buildUniqueAttributesIndex` (storage.js lines 615-634): for each entry
of `doc.indexed` and each of its attributes with `unique` set, the token
`hash(entry.hmac.id) ++ ":" ++ name ++ ":" ++ value`. -/
def buildUniqueAttributesIndex (doc : Doc) : List JStr :=
  match doc.indexed with
  | none => []
  | some entries =>
    (entries.map (fun entry =>
      ((entry.attributes.getD []).filter (fun a => a.unique)).map
        (fun a => dbHash entry.hmac.id ++ ':' :: (a.name ++ ':' :: a.value)))).flatten

/-- Two records of the same hub collide on the `dataHubDoc.attributes.unique`
multikey index when they share a `uniqueAttributes` token (the index is
declared on records where the field exists). -/
def tokensCollide (a b : Option (List JStr)) : Bool :=
  match a, b with
  | some xs, some ys => xs.any (fun t => ys.contains t)
  | _, _ => false

/-- Does inserting `r` violate a unique index of `dataHubDoc`?
Per `createIndexes`: `(dataHubId, id)` unique, and
`(dataHubId, uniqueAttributes)` unique multikey. -/
def docInsertConflict (store : DocStore) (r : DocRecord) : Bool :=
  store.any (fun s => s.dataHubId == r.dataHubId &&
    (s.id == r.id || tokensCollide s.uniqueAttributes r.uniqueAttributes))

/-- `api.insert` (storage.js lines 270-317): validates the document, builds
the record with the `uniqueAttributes` projection (field omitted when the
projection is empty), inserts it; a duplicate-key error from either unique
index is rethrown as `DuplicateError (409)`. -/
def apiInsert (store : DocStore) (now : Int) (dataHubId : JStr) (doc : Doc) :
    Except JsErr DocRecord × DocStore :=
  if assert128BitId doc.id = false then (.error .plainErr, store)
  else if doc.sequence < 0 then (.error .typeErr, store)
  else
    let ua := buildUniqueAttributesIndex doc
    let record : DocRecord := {
      dataHubId := dbHash dataHubId
      id := dbHash doc.id
      meta := { created := now, updated := now }
      doc := doc
      uniqueAttributes := if ua.length > 0 then some ua else none }
    if docInsertConflict store record then
      (.error (.bedrock "DuplicateError" 409), store)
    else (.ok record, store ++ [record])

/-- `api.get` (storage.js lines 327-343): `findOne` on
`(hash hub, hash id)`; a missing record is `NotFoundError (404)`. -/
def apiGet (store : DocStore) (dataHubId id : JStr) : Except JsErr DocRecord :=
  if assert128BitId id = false then .error .plainErr
  else
    match store.find? (fun r => r.dataHubId == dbHash dataHubId &&
        r.id == dbHash id) with
    | none => .error (.bedrock "NotFoundError" 404)
    | some r => .ok r

/-- The `$set` of `api.update` applied to a matching record: replaces `doc`,
advances `meta.updated`, and sets `uniqueAttributes` only when the fresh
projection is nonempty — an empty projection leaves a stale field behind,
since nothing `$unset`s it. -/
def applyDocSet (doc : Doc) (now : Int) (ua : List JStr) (r : DocRecord) :
    DocRecord :=
  { r with
    doc := doc
    meta := { r.meta with updated := now }
    uniqueAttributes := if ua.length > 0 then some ua else r.uniqueAttributes }

/-- The Mongo `update({dataHubId, id, 'doc.sequence': sequence-1}, {$set,
$setOnInsert}, {upsert: true})` call of `api.update`: modifies every
matching record, or — when nothing matches — inserts the record assembled
from the query's equality fields and the operators. Either way the reported
`n` counts matched-or-upserted records; a unique-index violation (the
existing `(dataHubId, id)` key, or a shared `uniqueAttributes` token within
the hub) raises a duplicate-key error instead. -/
def mongoDocUpsert (store : DocStore) (now : Int) (hubHash idHash : JStr)
    (doc : Doc) (ua : List JStr) : Except JsErr (DocStore × Nat) :=
  let matchq := fun (r : DocRecord) =>
    r.dataHubId == hubHash && r.id == idHash &&
      r.doc.sequence == doc.sequence - 1
  if store.any matchq then
    if store.any (fun r => matchq r &&
        store.any (fun s => s.dataHubId == hubHash && !(s.id == idHash) &&
          tokensCollide s.uniqueAttributes (applyDocSet doc now ua r).uniqueAttributes)) then
      .error .dupKey
    else
      .ok (store.map (fun r => if matchq r then applyDocSet doc now ua r else r),
        (store.filter matchq).length)
  else
    let record : DocRecord := {
      dataHubId := hubHash
      id := idHash
      meta := { created := now, updated := now }
      doc := doc
      uniqueAttributes := if ua.length > 0 then some ua else none }
    if docInsertConflict store record then .error .dupKey
    else .ok (store ++ [record], 1)

/-- `api.update` (storage.js lines 370-435): validate, run the conditional
upsert, return `true` when `n > 0`; a duplicate-key error is rethrown as
`DuplicateError (409)`; the trailing `InvalidStateError` is only reachable
when the upsert reports `n = 0`. -/
def apiUpdate (store : DocStore) (now : Int) (dataHubId : JStr) (doc : Doc) :
    Except JsErr Bool × DocStore :=
  if assert128BitId doc.id = false then (.error .plainErr, store)
  else if doc.sequence < 0 then (.error .typeErr, store)
  else
    match mongoDocUpsert store now (dbHash dataHubId) (dbHash doc.id) doc
        (buildUniqueAttributesIndex doc) with
    | .error .dupKey => (.error (.bedrock "DuplicateError" 409), store)
    | .error e => (.error e, store)
    | .ok (st, n) =>
      if n > 0 then (.ok true, st)
      else (.error (.bedrock "InvalidStateError" 409), store)

/-- `api.remove` (storage.js lines 446-454): delete by
`(hash hub, hash id)`; returns whether anything was removed. -/
def apiRemove (store : DocStore) (dataHubId id : JStr) :
    Except JsErr Bool × DocStore :=
  if assert128BitId id = false then (.error .plainErr, store)
  else
    let pred := fun (r : DocRecord) => r.dataHubId == dbHash dataHubId &&
      r.id == dbHash id
    (.ok (store.any pred), store.filter (fun r => !(pred r)))

/-! ## `dataHubDocChunk` operations (storage.js) -/

/-- A document chunk `{index, offset, sequence, jwe}`. -/
structure Chunk where
  index : Int
  offset : Int
  sequence : Int
  jwe : JStr
deriving DecidableEq, Repr

/-- A record of the `dataHubDocChunk` collection (hashed ids). -/
structure ChunkRecord where
  dataHubId : JStr
  docId : JStr
  meta : Meta
  chunk : Chunk
deriving DecidableEq, Repr

abbrev ChunkStore := List ChunkRecord

/-- `api.updateChunk` (storage.js lines 466-551): validates the chunk,
loads the parent document via `api.get` (its `NotFoundError` propagates,
before anything is written), rejects with `InvalidStateError (409)` when
`chunk.sequence !== doc.sequence`, then upserts on
`(dataHubId, docId, chunk.index)`. That query is exactly the collection's
unique key, so the upsert always matches or inserts (`n = 1`) and the
trailing `InvalidStateError` throw of the source is unreachable. -/
def apiUpdateChunk (docs : DocStore) (chunks : ChunkStore) (now : Int)
    (dataHubId docId : JStr) (chunk : Chunk) :
    Except JsErr Bool × ChunkStore :=
  if assert128BitId docId = false then (.error .plainErr, chunks)
  else if chunk.index < 0 then (.error .typeErr, chunks)
  else if chunk.offset < 0 then (.error .typeErr, chunks)
  else if chunk.sequence < 0 then (.error .typeErr, chunks)
  else
    match apiGet docs dataHubId docId with
    | .error e => (.error e, chunks)
    | .ok parent =>
      if chunk.sequence ≠ parent.doc.sequence then
        (.error (.bedrock "InvalidStateError" 409), chunks)
      else
        let matchq := fun (r : ChunkRecord) =>
          r.dataHubId == dbHash dataHubId && r.docId == dbHash docId &&
            r.chunk.index == chunk.index
        if chunks.any matchq then
          (.ok true, chunks.map (fun r => if matchq r then
            { r with
              chunk := chunk
              meta := { r.meta with updated := now } }
            else r))
        else
          (.ok true, chunks ++ [{
            dataHubId := dbHash dataHubId
            docId := dbHash docId
            meta := { created := now, updated := now }
            chunk := chunk }])

/-- `api.getChunk` (storage.js lines 562-586). -/
def apiGetChunk (chunks : ChunkStore) (dataHubId docId : JStr)
    (chunkIndex : Int) : Except JsErr ChunkRecord :=
  if assert128BitId docId = false then .error .plainErr
  else if chunkIndex < 0 then .error .typeErr
  else
    match chunks.find? (fun r => r.dataHubId == dbHash dataHubId &&
        r.docId == dbHash docId && r.chunk.index == chunkIndex) with
    | none => .error (.bedrock "NotFoundError" 404)
    | some r => .ok r

/-- `api.removeChunk` (storage.js lines 598-613). -/
def apiRemoveChunk (chunks : ChunkStore) (dataHubId docId : JStr)
    (chunkIndex : Int) : Except JsErr Bool × ChunkStore :=
  if assert128BitId docId = false then (.error .plainErr, chunks)
  else if chunkIndex < 0 then (.error .typeErr, chunks)
  else
    let pred := fun (r : ChunkRecord) => r.dataHubId == dbHash dataHubId &&
      r.docId == dbHash docId && r.chunk.index == chunkIndex
    (.ok (chunks.any pred), chunks.filter (fun r => !(pred r)))

/-! ## `dataHubConfig` operations (storage.js) -/

/-- A data hub configuration. `invoker` / `delegator` may be a principal or
a list of principals; the embedded code only copies them, so they are kept
as JSON values. -/
structure HubConfig where
  id : JStr
  sequence : Int
  controller : JStr
  invoker : Option Jval
  delegator : Option Jval
  referenceId : Option JStr
  keyAgreementKey : Option KeyRef
  hmac : Option KeyRef
deriving DecidableEq, Repr

/-- A record of the `dataHubConfig` collection (hashed keys). -/
structure ConfigRecord where
  id : JStr
  controller : JStr
  meta : Meta
  config : HubConfig
deriving DecidableEq, Repr

abbrev ConfigStore := List ConfigRecord

/-- What a caller awaiting `api.updateConfig` receives when the promise
resolves. The external permission check is modelled as granted, and the
`assert` validations hold by typing, so the function never rejects. -/
inductive UpdateConfigRet where
  /-- the function returned `true` -/
  | success
  /-- the function RETURNED (did not throw) a constructed `BedrockError`
  with this `name` and `httpStatusCode` -/
  | errValue (name : String) (status : Nat)
deriving DecidableEq, Repr

/-- `api.updateConfig` (storage.js lines 196-231): conditional update on
`id = hash(config.id)` and stored `config.sequence = config.sequence - 1`;
when zero records match it constructs an `InvalidStateError (409)` — and
`return`s it instead of throwing. -/
def apiUpdateConfig (store : ConfigStore) (now : Int) (config : HubConfig) :
    UpdateConfigRet × ConfigStore :=
  let matchq := fun (r : ConfigRecord) =>
    r.id == dbHash config.id && r.config.sequence == config.sequence - 1
  if store.any matchq then
    (.success, store.map (fun r => if matchq r then
      { r with
        config := config
        controller := dbHash config.controller
        meta := { r.meta with updated := now } }
      else r))
  else (.errValue "InvalidStateError" 409, store)

/-- `api.getConfig` (storage.js lines 241-260): `findOne` by `hash(id)`;
missing is `NotFoundError (404)`. -/
def apiGetConfig (store : ConfigStore) (id : JStr) :
    Except JsErr ConfigRecord :=
  match store.find? (fun r => r.id == dbHash id) with
  | none => .error (.bedrock "NotFoundError" 404)
  | some r => .ok r

/-! ## Document queries (part_006 query route + `api.find`) -/

/-- The two document-collection query shapes built by the query route
(part_006 lines 471-502). `storage.find` additionally forces a `dataHubId`
equality into whichever shape it receives. -/
inductive DocQuery where
  /-- `{'doc.indexed.hmac.id': index,
       'doc.indexed.attributes.name': {$all: names}}` -/
  | hasq (index : JStr) (names : List JStr)
  /-- `{$or: branches}`, each branch
  `{'doc.indexed.hmac.id': index,
    'doc.indexed.attributes': {$all: [{$elemMatch: {name, value}}, …]}}` -/
  | orq (branches : List (JStr × List (JStr × JStr)))
deriving DecidableEq, Repr

/-- Equality at the path `doc.indexed.hmac.id`: `doc.indexed` is an array,
so MongoDB matches when some entry's `hmac.id` equals the value. -/
def hmacIdMatches (index : JStr) (doc : Doc) : Bool :=
  (doc.indexed.getD []).any (fun e => e.hmac.id == index)

/-- `{'doc.indexed.attributes.name': {$all: names}}`: `$all` requires every
listed name to occur somewhere along the multikey path — as an attribute
name of some (not necessarily the same) entry; `$all: []` matches no
document. -/
def attrNamesAll (names : List JStr) (doc : Doc) : Bool :=
  !names.isEmpty && names.all (fun n =>
    (doc.indexed.getD []).any (fun e =>
      (e.attributes.getD []).any (fun a => a.name == n)))

/-- `{'doc.indexed.attributes': {$all: [{$elemMatch: …}, …]}}`: each
`$elemMatch` must be satisfied by an element of one of the `attributes`
arrays found along the path (again, not necessarily the same entry for
different `$elemMatch`es); `$all: []` matches no document. -/
def attrElemAll (pairs : List (JStr × JStr)) (doc : Doc) : Bool :=
  !pairs.isEmpty && pairs.all (fun p =>
    (doc.indexed.getD []).any (fun e =>
      (e.attributes.getD []).any (fun a => a.name == p.1 && a.value == p.2)))

/-- MongoDB evaluation of the two query shapes on a document. -/
def docQueryMatches : DocQuery → Doc → Bool
  | .hasq index names, doc => hmacIdMatches index doc && attrNamesAll names doc
  | .orq branches, doc =>
    branches.any (fun br => hmacIdMatches br.1 doc && attrElemAll br.2 doc)

/-- `api.find` (storage.js lines 355-359): forces
`query.dataHubId = hash(dataHubId)` and returns the matching records. An
`$or` with an empty array is rejected by the server (`BadValue`), modelled
as a generic thrown error. -/
def apiFind (store : DocStore) (dataHubId : JStr) (query : DocQuery) :
    Except JsErr (List DocRecord) :=
  match query with
  | .orq [] => .error .plainErr
  | _ => .ok (store.filter (fun r => r.dataHubId == dbHash dataHubId &&
      docQueryMatches query r.doc))

/-- An element of the `equals` array: a JS object, i.e. its key/value pairs
in iteration order. -/
abbrev EqualsObj := List (JStr × Jval)

/-- The query construction of the part_006 query route (lines 471-502):
with `equals` present (including empty, which is truthy), each element
contributes an `$or` branch holding one `$elemMatch` per key, and any
non-string value aborts with `DataError (400)`; with `equals` absent the
`has` names go into an `$all` over attribute names. (A request with neither
field would send `$all: undefined` and fail in the driver; the claims do
not touch that case.) -/
def buildDocQuery (index : JStr) (equals : Option (List EqualsObj))
    (has : List JStr) : Except JsErr DocQuery :=
  match equals with
  | some eqs =>
    if eqs.all (fun e => e.all (fun kv =>
        match kv.2 with | .str _ => true | _ => false)) then
      .ok (.orq (eqs.map (fun e => (index, e.map (fun kv =>
        (kv.1, match kv.2 with | .str s => s | _ => []))))))
    else .error (.bedrock "DataError" 400)
  | none => .ok (.hasq index has)

/-- The query route handler after authorization: build the query, run
`storage.find`, and return the stored `doc`s. -/
def queryRoute (store : DocStore) (dataHubId index : JStr)
    (equals : Option (List EqualsObj)) (has : List JStr) :
    Except JsErr (List Doc) :=
  match buildDocQuery index equals has with
  | .error e => .error e
  | .ok q =>
    match apiFind store dataHubId q with
    | .error e => .error e
    | .ok rs => .ok (rs.map (fun r => r.doc))

/-! ## JS string search (for the zcap URL parser) -/

/-- Scan a suffix of the haystack for the first occurrence of `pat`,
reporting absolute positions starting at `k`. -/
def findIdxMatchAux (pat : JStr) : JStr → Nat → Option Nat
  | [], k => if pat.isPrefixOf ([] : JStr) then some k else none
  | c :: rest, k =>
    if pat.isPrefixOf (c :: rest) then some k
    else findIdxMatchAux pat rest (k + 1)

/-- `hay.indexOf(pat, start)` (JS): the least index `≥ start` at which
`pat` occurs, `none` standing for `-1`. (JS clamps an empty pattern to the
string length; the embedded code only ever searches nonempty patterns.) -/
def jsIndexOfFrom (hay pat : JStr) (start : Nat) : Option Nat :=
  findIdxMatchAux pat (hay.drop start) start

/-- `hay.indexOf(pat)`. -/
def jsIndexOf (hay pat : JStr) : Option Nat := jsIndexOfFrom hay pat 0

/-- `s.substring(a, b)` for `a ≤ b` (the only way the code calls it). -/
def jsSubstring (s : JStr) (a b : Nat) : JStr := (s.drop a).take (b - a)

/-! ## Root capabilities and delegated capabilities (part_006) -/

/-- A capability document as materialized by `_generateRootCapability`
(`context` holding the security-v2 context URL). -/
structure Zcap where
  context : JStr
  id : JStr
  invocationTarget : JStr
  controller : JStr
  invoker : Option Jval
  delegator : Option Jval
deriving DecidableEq, Repr

/-- `_getInvocationTarget` (part_006 lines 851-890), parameterized by the
server's `baseUri` (routes are fixed: `routes.dataHubs = '/data-hubs'`).
Returns `(target, dataHubId)`. The translation keeps the source's
`indexOf`-based scanning: the hub id is the segment up to the FIRST `'/'`
after `<baseUri>/data-hubs/`, and `'zcaps/'` is searched for ANYWHERE after
that slash; the suffix after it must be `documents`, `query`,
`authorizations`, or `documents/<d>` with `<d>` nonempty. -/
def getInvocationTarget (baseUri url : JStr) : Option (JStr × JStr) :=
  let baseStorageUrl := baseUri ++ js "/data-hubs/"
  match jsIndexOf url baseStorageUrl with
  | some 0 =>
    let dataHubIdIdx := baseStorageUrl.length
    match jsIndexOfFrom url (js "/") dataHubIdIdx with
    | none => none
    | some idx =>
      let dataHubId := baseStorageUrl ++ jsSubstring url dataHubIdIdx idx
      match jsIndexOfFrom url (js "zcaps/") (idx + 1) with
      | none => none
      | some zidx =>
        let path := url.drop (zidx + 6)
        if path = js "documents" ∨ path = js "query" ∨
            path = js "authorizations" ∨
            ((js "documents/").isPrefixOf path ∧ path.length > 10) then
          some (dataHubId ++ '/' :: path, dataHubId)
        else none
  | _ => none

/-- `_generateRootCapability` (part_006 lines 832-849): parse the URL; for
a root zcap URL, load the hub's config with `storage.getConfig` (whose
`NotFoundError` propagates) and build the capability document from it;
for any other URL, `null`. -/
def generateRootCapability (cfgStore : ConfigStore) (baseUri url : JStr) :
    Except JsErr (Option Zcap) :=
  match getInvocationTarget baseUri url with
  | none => .ok none
  | some (target, dataHubId) =>
    match apiGetConfig cfgStore dataHubId with
    | .error e => .error e
    | .ok r =>
      .ok (some {
        context := js "https://w3id.org/security/v2"
        id := url
        invocationTarget := target
        controller := r.config.controller
        invoker := r.config.invoker
        delegator := r.config.delegator })

/-- A record of the external delegated-capability store
(`brZCapStorage.authorizations`): the interface seam the code looks
capabilities up through, keyed by capability id and invocation target. -/
structure AuthRecord where
  id : JStr
  controller : JStr
  invocationTarget : JStr
  capability : Zcap
deriving DecidableEq, Repr

abbrev AuthStore := List AuthRecord

/-- `getInvokedCapability` (part_006 lines 804-830): materialize the zcap
dynamically whenever the declared id PARSES as a root zcap URL — the
function never compares the id against `expectedRootCapability`; that
string is only handled inside the external `http-signature-zcap-verify`
library. Otherwise fetch from delegated storage by
`(id, invocationTarget = expectedTarget)`, rethrowing its `NotFoundError`
as `NotAllowedError (400)`. -/
def getInvokedCapability (cfgStore : ConfigStore) (authStore : AuthStore)
    (baseUri id expectedTarget : JStr) : Except JsErr Zcap :=
  match generateRootCapability cfgStore baseUri id with
  | .error e => .error e
  | .ok (some zcap) => .ok zcap
  | .ok none =>
    match authStore.find? (fun r => r.id == id &&
        r.invocationTarget == expectedTarget) with
    | none => .error (.bedrock "NotAllowedError" 400)
    | some r => .ok r.capability

/-! ## Decidable equality for operation results -/

instance {ε α : Type} [DecidableEq ε] [DecidableEq α] :
    DecidableEq (Except ε α) := fun x y =>
  match x, y with
  | .ok a, .ok b =>
    if h : a = b then .isTrue (by rw [h]) else .isFalse (by simp [h])
  | .error a, .error b =>
    if h : a = b then .isTrue (by rw [h]) else .isFalse (by simp [h])
  | .ok _, .error _ => .isFalse (by simp)
  | .error _, .ok _ => .isFalse (by simp)

/-! ## Concrete fixtures for witnesses and counterexamples -/

/-- A valid 128-bit identifier (random payload of 16 zero bytes). -/
def zidA : JStr := generateRandom (List.replicate 16 0)

/-- Another valid identifier (random payload of 16 `0xFF` bytes). -/
def zidB : JStr := generateRandom (List.replicate 16 255)

/-- A plain document (no blinded index) at sequence 4. -/
def docA4 : Doc := { id := zidA, sequence := 4, jwe := js "ct", indexed := none }

/-- A unique blinded-index attribute. -/
def attrU : Attribute := { name := js "n", value := js "v", unique := true }

/-- An indexed entry under hmac key `k1` carrying `attrU`. -/
def entryU : IndexedEntry := {
  hmac := { id := js "k1", type := js "Sha256HmacKey2019" }
  sequence := 0
  attributes := some [attrU] }

/-- A document (sequence 0) with one unique attribute. -/
def docU0 : Doc := { id := zidA, sequence := 0, jwe := js "ct", indexed := some [entryU] }

/-- The same document id at sequence 1, with no `indexed` at all. -/
def docPlain1 : Doc := { id := zidA, sequence := 1, jwe := js "ct2", indexed := none }

/-- A config fixture. -/
def cfgA : HubConfig := {
  id := js "https://x/data-hubs/abc"
  sequence := 1
  controller := js "acct"
  invoker := none
  delegator := none
  referenceId := none
  keyAgreementKey := none
  hmac := none }

/-- A stored record of `cfgA`'s hub at sequence 5. -/
def cfgRecA : ConfigRecord := {
  id := dbHash cfgA.id
  controller := dbHash cfgA.controller
  meta := { created := 0, updated := 0 }
  config := { cfgA with sequence := 5 } }

/-! ## C1 -/

/-- C1 (code bug). With `docA4` stored at sequence 4 in hub `hubA`:
`update` at sequence 5 (= s+1) succeeds with `true`; `update` at sequence 6
(≠ s+1) throws `DuplicateError (409)` — not the claimed `InvalidStateError`:
the conditional upsert matches nothing and attempts an insert, which the
unique `(dataHubId, id)` index rejects as a duplicate key, while the
source's own `InvalidStateError` branch needs the upsert to report `n = 0`,
which never happens. With no prior record, `update` inserts the document
and sets `meta.created`. -/
theorem C1_update_mismatch_throws_duplicate :
    (apiUpdate ((apiInsert [] 0 (js "hubA") docA4).2) 1 (js "hubA")
      { docA4 with sequence := 5 }).1 = .ok true ∧
    (apiUpdate ((apiInsert [] 0 (js "hubA") docA4).2) 1 (js "hubA")
      { docA4 with sequence := 6 }).1 =
        .error (.bedrock "DuplicateError" 409) ∧
    (apiUpdate [] 1 (js "hubA") docA4).1 = .ok true ∧
    ((apiUpdate [] 1 (js "hubA") docA4).2).map (fun r => r.meta.created) = [1] := by
  refine ⟨by decide, by decide, by decide, by decide⟩

/-! ## C2 -/

/-- C2 (code bug). With `cfgA`'s hub stored at sequence 5, `updateConfig`
at sequence 7 matches zero rows (stored sequence ≠ 6). It constructs the
`InvalidStateError (409)` — but RETURNS it, so the awaiting caller receives
the error object as the resolved value instead of observing a rejection;
the store is untouched. The same happens on an empty store. -/
theorem C2_updateConfig_returns_error :
    (apiUpdateConfig [cfgRecA] 9 { cfgA with sequence := 7 }) =
      (.errValue "InvalidStateError" 409, [cfgRecA]) ∧
    (apiUpdateConfig [] 9 cfgA).1 = .errValue "InvalidStateError" 409 := by
  refine ⟨by decide, by decide⟩

/-! ## C3 -/

/-- C3 counterexample. Store `docU0` (one unique attribute), then update it
with `docPlain1` (sequence 1, no indexed entries): the fresh projection is
empty, but the stored record still carries the OLD `uniqueAttributes`
token — the update's `$set` merely omits the field, it never unsets it, so
the field is not "entirely omitted" as the claim requires. -/
theorem C3_counterexample :
    buildUniqueAttributesIndex docPlain1 = [] ∧
    ((apiUpdate ((apiInsert [] 0 (js "hubA") docU0).2) 1 (js "hubA")
        docPlain1).2).map (fun r => r.uniqueAttributes) =
      [some [dbHash (js "k1") ++ ':' :: (js "n" ++ ':' :: js "v")]] := by
  refine ⟨by decide, by decide⟩

/-! ## zcap fixtures -/

/-- Server base URI used in the zcap fixtures. -/
def baseX : JStr := js "https://x"

/-- The config of hub `https://x/data-hubs/h1`. -/
def cfgH1 : HubConfig := {
  id := js "https://x/data-hubs/h1"
  sequence := 0
  controller := js "did:v1:ctrl"
  invoker := some (.str (js "did:key:inv"))
  delegator := some (.str (js "did:key:del"))
  referenceId := none
  keyAgreementKey := none
  hmac := none }

/-- The stored config record for hub `h1`. -/
def cfgRecH1 : ConfigRecord := {
  id := dbHash cfgH1.id
  controller := dbHash cfgH1.controller
  meta := { created := 0, updated := 0 }
  config := cfgH1 }

/-! ## C5 -/

/-- C5 counterexample. Two URLs outside the claimed language still produce
capability documents: `…/h1/x/zcaps/documents` (an extra path segment
between the hub id and `zcaps/` — the code merely searches for the first
`'zcaps/'` after the hub segment), and `…/h1/zcaps/documents/q`, whose
docId `"q"` is not a valid 128-bit identifier (the code only requires a
nonempty docId). The claim says both must yield `null`. -/
theorem C5_counterexample :
    generateRootCapability [cfgRecH1] baseX
        (js "https://x/data-hubs/h1/x/zcaps/documents") =
      .ok (some {
        context := js "https://w3id.org/security/v2"
        id := js "https://x/data-hubs/h1/x/zcaps/documents"
        invocationTarget := js "https://x/data-hubs/h1/documents"
        controller := js "did:v1:ctrl"
        invoker := some (.str (js "did:key:inv"))
        delegator := some (.str (js "did:key:del")) }) ∧
    generateRootCapability [cfgRecH1] baseX
        (js "https://x/data-hubs/h1/zcaps/documents/q") =
      .ok (some {
        context := js "https://w3id.org/security/v2"
        id := js "https://x/data-hubs/h1/zcaps/documents/q"
        invocationTarget := js "https://x/data-hubs/h1/documents/q"
        controller := js "did:v1:ctrl"
        invoker := some (.str (js "did:key:inv"))
        delegator := some (.str (js "did:key:del")) }) ∧
    assert128BitId (js "q") = false := by
  refine ⟨by decide, by decide, by decide⟩

/-! ## C6 -/

/-- C6 counterexample. The declared capability id is hub `h1`'s root zcap
URL, which differs from the expected root capability
`https://x/data-hubs/ha/zcaps/documents` of the hub `ha` being served. The
claim says any id other than `expectedRootCapability` must be looked up in
delegated storage (here empty, so the lookup would fail `NotAllowedError`);
instead the code materializes the capability dynamically, because it only
checks that the id PARSES as a root zcap URL. -/
theorem C6_counterexample :
    getInvokedCapability [cfgRecH1] [] baseX
        (js "https://x/data-hubs/h1/zcaps/documents")
        (js "https://x/data-hubs/ha/documents") =
      .ok {
        context := js "https://w3id.org/security/v2"
        id := js "https://x/data-hubs/h1/zcaps/documents"
        invocationTarget := js "https://x/data-hubs/h1/documents"
        controller := js "did:v1:ctrl"
        invoker := some (.str (js "did:key:inv"))
        delegator := some (.str (js "did:key:del")) } ∧
    js "https://x/data-hubs/h1/zcaps/documents" ≠
      js "https://x/data-hubs/ha/zcaps/documents" := by
  refine ⟨by decide, by decide⟩

/-! ## C9 -/

/-- C9 counterexample. Flip bit 0 of byte 2 (the first position outside the
fixed `0x00 0x10` prefix) of a generated identifier's 18-byte buffer and
re-encode: the result is a different buffer, it decodes back to exactly the
flipped bytes, and `validate` ACCEPTS it — the claim says any bit-flip
outside positions 0-1 must make `validate` reject. -/
theorem C9_counterexample :
    assert128BitId
      ('z' :: b58encode (flipBit (0 :: 16 :: List.replicate 16 0) 2 0)) = true ∧
    b58decode (b58encode (flipBit (0 :: 16 :: List.replicate 16 0) 2 0)) =
      some (flipBit (0 :: 16 :: List.replicate 16 0) 2 0) ∧
    flipBit (0 :: 16 :: List.replicate 16 0) 2 0 ≠
      (0 :: 16 :: List.replicate 16 0) := by
  refine ⟨by decide, by decide, by decide⟩

/-! ## C10 -/

/-- C10 (confirmed). When no document with `(hubId, docId)` exists, a
well-formed `updateChunk` call fails with the `NotFoundError (404)`
propagated from the internal `api.get` parent lookup — not
`InvalidStateError` — and the chunk store comes back unchanged: the lookup
precedes every write. -/
theorem C10_updateChunk_no_parent (docs : DocStore) (chunks : ChunkStore)
    (now : Int) (hub docId : JStr) (chunk : Chunk)
    (hid : assert128BitId docId = true)
    (hi : 0 ≤ chunk.index) (ho : 0 ≤ chunk.offset) (hs : 0 ≤ chunk.sequence)
    (habs : ∀ r ∈ docs, ¬(r.dataHubId = dbHash hub ∧ r.id = dbHash docId)) :
    apiUpdateChunk docs chunks now hub docId chunk =
      (.error (.bedrock "NotFoundError" 404), chunks) := by
  have hni : ¬ chunk.index < 0 := by omega
  have hno : ¬ chunk.offset < 0 := by omega
  have hns : ¬ chunk.sequence < 0 := by omega
  have h1 : docs.find?
      (fun r => r.dataHubId == dbHash hub && r.id == dbHash docId) = none := by
    apply List.find?_eq_none.mpr
    intro r hr
    have h2 := habs r hr
    simp only [Bool.and_eq_true, beq_iff_eq]
    tauto
  have hg : apiGet docs hub docId = .error (.bedrock "NotFoundError" 404) := by
    simp [apiGet, hid, h1]
  simp [apiUpdateChunk, hid, hni, hno, hns, hg]

/-- Witness for C10 at a concrete input. -/
theorem C10_updateChunk_no_parent_witness :
    apiUpdateChunk [] [] 0 (js "hubA") zidA
        { index := 0, offset := 0, sequence := 0, jwe := js "c" } =
      (.error (.bedrock "NotFoundError" 404), []) :=
  C10_updateChunk_no_parent [] [] 0 (js "hubA") zidA
    { index := 0, offset := 0, sequence := 0, jwe := js "c" }
    (by decide) (by decide) (by decide) (by decide) (by simp)

/-! ## C7 -/

/-- Reduction of `apiUpdateChunk` on the success path: a matching parent
sequence turns the call into the unconditional upsert keyed by
`(dataHubId, docId, chunk.index)`. -/
theorem apiUpdateChunk_ok_eq (docs : DocStore) (chunks : ChunkStore)
    (now : Int) (hub docId : JStr) (chunk : Chunk) (parent : DocRecord)
    (hid : assert128BitId docId = true)
    (hni : ¬ chunk.index < 0) (hno : ¬ chunk.offset < 0)
    (hns : ¬ chunk.sequence < 0)
    (hget : apiGet docs hub docId = .ok parent)
    (heq : chunk.sequence = parent.doc.sequence) :
    apiUpdateChunk docs chunks now hub docId chunk =
      (if chunks.any (fun r => r.dataHubId == dbHash hub &&
          r.docId == dbHash docId && r.chunk.index == chunk.index) then
        (.ok true, chunks.map (fun r =>
          if r.dataHubId == dbHash hub && r.docId == dbHash docId &&
              r.chunk.index == chunk.index then
            { r with
              chunk := chunk
              meta := { r.meta with updated := now } }
          else r))
      else
        (.ok true, chunks ++ [{
          dataHubId := dbHash hub
          docId := dbHash docId
          meta := { created := now, updated := now }
          chunk := chunk }])) := by
  have hne : ¬(chunk.sequence ≠ parent.doc.sequence) := by simpa using heq
  simp [apiUpdateChunk, hid, hni, hno, hns, hget, hne]

/-- C7 (confirmed). With the parent document present (`api.get` returns
`parent`), `updateChunk` fails with `InvalidStateError (409)` and leaves
the chunk store unchanged whenever `chunk.sequence` differs from the
parent's current sequence; when they are equal it succeeds with `true`,
upserting the chunk keyed by `(hubId, docId, chunk.index)` with no further
condition: the result holds the new chunk under that key, and every chunk
under any other key is kept. Since `docs` is arbitrary, applying this to
the store after a successful `update(doc, seq = k+1)` — where the parent's
sequence is `k+1` — gives the claim's "only `chunk.sequence = k+1` can
succeed". -/
theorem C7_updateChunk_sequence_gate (docs : DocStore) (chunks : ChunkStore)
    (now : Int) (hub docId : JStr) (chunk : Chunk) (parent : DocRecord)
    (hid : assert128BitId docId = true)
    (hi : 0 ≤ chunk.index) (ho : 0 ≤ chunk.offset) (hs : 0 ≤ chunk.sequence)
    (hget : apiGet docs hub docId = .ok parent) :
    (chunk.sequence ≠ parent.doc.sequence →
      apiUpdateChunk docs chunks now hub docId chunk =
        (.error (.bedrock "InvalidStateError" 409), chunks)) ∧
    (chunk.sequence = parent.doc.sequence →
      (apiUpdateChunk docs chunks now hub docId chunk).1 = .ok true ∧
      (∃ r ∈ (apiUpdateChunk docs chunks now hub docId chunk).2,
        r.dataHubId = dbHash hub ∧ r.docId = dbHash docId ∧
          r.chunk = chunk) ∧
      (∀ r ∈ chunks,
        ¬(r.dataHubId = dbHash hub ∧ r.docId = dbHash docId ∧
            r.chunk.index = chunk.index) →
          r ∈ (apiUpdateChunk docs chunks now hub docId chunk).2)) := by
  have hni : ¬ chunk.index < 0 := by omega
  have hno : ¬ chunk.offset < 0 := by omega
  have hns : ¬ chunk.sequence < 0 := by omega
  constructor
  · intro hne
    simp [apiUpdateChunk, hid, hni, hno, hns, hget, hne]
  · intro heq
    have hres := apiUpdateChunk_ok_eq docs chunks now hub docId chunk parent
      hid hni hno hns hget heq
    by_cases hany : chunks.any (fun r => r.dataHubId == dbHash hub &&
        r.docId == dbHash docId && r.chunk.index == chunk.index) = true
    · rw [hres, if_pos hany]
      obtain ⟨r, hr, hm⟩ := List.any_eq_true.mp hany
      have hm' : r.dataHubId = dbHash hub ∧ r.docId = dbHash docId ∧
          r.chunk.index = chunk.index := by
        simpa [Bool.and_eq_true, beq_iff_eq, and_assoc] using hm
      refine ⟨rfl, ?_, ?_⟩
      · refine ⟨{ r with
          chunk := chunk
          meta := { r.meta with updated := now } }, ?_, hm'.1, hm'.2.1, rfl⟩
        show _ ∈ List.map _ chunks
        exact List.mem_map.mpr ⟨r, hr, by rw [if_pos hm]⟩
      · intro s hs hkey
        have hsm : (s.dataHubId == dbHash hub && s.docId == dbHash docId &&
            s.chunk.index == chunk.index) = false := by
          cases hb : (s.dataHubId == dbHash hub && s.docId == dbHash docId &&
            s.chunk.index == chunk.index)
          · rfl
          · exact absurd (by simpa [Bool.and_eq_true, beq_iff_eq,
              and_assoc] using hb) hkey
        show s ∈ List.map _ chunks
        exact List.mem_map.mpr ⟨s, hs, by rw [hsm]; exact if_neg (by simp)⟩
    · rw [hres, if_neg hany]
      refine ⟨rfl, ⟨{
          dataHubId := dbHash hub
          docId := dbHash docId
          meta := { created := now, updated := now }
          chunk := chunk }, ?_, rfl, rfl, rfl⟩, ?_⟩
      · show _ ∈ chunks ++ [_]
        exact List.mem_append_right _ (by simp)
      · intro s hs _
        show s ∈ chunks ++ [_]
        exact List.mem_append_left _ hs

/-- Witness for C7: with `docA4` stored at sequence 4 in hub `hubA`, a
chunk at sequence 9 is rejected with `InvalidStateError` and a chunk at
sequence 4 succeeds. -/
theorem C7_updateChunk_sequence_gate_witness :
    apiUpdateChunk ((apiInsert [] 0 (js "hubA") docA4).2) [] 5 (js "hubA")
        zidA { index := 0, offset := 0, sequence := 9, jwe := js "c" } =
      (.error (.bedrock "InvalidStateError" 409), []) ∧
    (apiUpdateChunk ((apiInsert [] 0 (js "hubA") docA4).2) [] 5 (js "hubA")
        zidA { index := 0, offset := 0, sequence := 4, jwe := js "c" }).1 =
      .ok true := by
  constructor
  · exact (C7_updateChunk_sequence_gate ((apiInsert [] 0 (js "hubA") docA4).2)
      [] 5 (js "hubA") zidA
      { index := 0, offset := 0, sequence := 9, jwe := js "c" }
      { dataHubId := dbHash (js "hubA"), id := dbHash zidA,
        meta := { created := 0, updated := 0 }, doc := docA4,
        uniqueAttributes := none }
      (by decide) (by decide) (by decide) (by decide) (by decide)).1
      (by decide)
  · exact ((C7_updateChunk_sequence_gate ((apiInsert [] 0 (js "hubA") docA4).2)
      [] 5 (js "hubA") zidA
      { index := 0, offset := 0, sequence := 4, jwe := js "c" }
      { dataHubId := dbHash (js "hubA"), id := dbHash zidA,
        meta := { created := 0, updated := 0 }, doc := docA4,
        uniqueAttributes := none }
      (by decide) (by decide) (by decide) (by decide) (by decide)).2
      (by decide)).1

/-! ## C8 -/

/-- Mapping a function that fixes every `p`-record and keeps non-`p`-records
outside `p` leaves the `p`-filtered sublist unchanged. -/
theorem filter_map_fix {α : Type} (p : α → Bool) (f : α → α) (l : List α)
    (h1 : ∀ a ∈ l, p a = true → f a = a)
    (h2 : ∀ a ∈ l, p a = false → p (f a) = false) :
    (l.map f).filter p = l.filter p := by
  induction l with
  | nil => rfl
  | cons x xs ih =>
    have ih' := ih (fun a ha hp => h1 a (List.mem_cons_of_mem _ ha) hp)
      (fun a ha hp => h2 a (List.mem_cons_of_mem _ ha) hp)
    cases hp : p x
    · simp [List.filter_cons, hp, h2 x (List.mem_cons_self x xs) hp, ih']
    · simp [List.filter_cons, hp, h1 x (List.mem_cons_self x xs) hp, ih']

/-- A successful Mongo upsert of `api.update` returns either the
conditionally modified store or the store with the fresh record appended. -/
theorem mongoDocUpsert_ok_store {store : DocStore} {now : Int}
    {hubHash idHash : JStr} {doc : Doc} {ua : List JStr} {st : DocStore}
    {n : Nat}
    (h : mongoDocUpsert store now hubHash idHash doc ua = .ok (st, n)) :
    (store.any (fun r => r.dataHubId == hubHash && r.id == idHash &&
        r.doc.sequence == doc.sequence - 1) = true ∧
      st = store.map (fun r =>
        if r.dataHubId == hubHash && r.id == idHash &&
            r.doc.sequence == doc.sequence - 1 then
          applyDocSet doc now ua r
        else r)) ∨
    (store.any (fun r => r.dataHubId == hubHash && r.id == idHash &&
        r.doc.sequence == doc.sequence - 1) = false ∧
      st = store ++ [{
        dataHubId := hubHash
        id := idHash
        meta := { created := now, updated := now }
        doc := doc
        uniqueAttributes := if ua.length > 0 then some ua else none }]) := by
  simp only [mongoDocUpsert] at h
  split at h
  · rename_i hany
    split at h
    · exact absurd h (by simp)
    · simp only [Except.ok.injEq, Prod.mk.injEq] at h
      exact Or.inl ⟨hany, h.1.symm⟩
  · rename_i hany
    by_cases hc : docInsertConflict store
        ⟨hubHash, idHash, ⟨now, now⟩, doc,
          if ua.length > 0 then some ua else none⟩ = true
    · simp [hc] at h
    · simp only [hc, Bool.false_eq_true, if_false, Except.ok.injEq,
        Prod.mk.injEq] at h
      have hany' : store.any (fun r => r.dataHubId == hubHash &&
          r.id == idHash && r.doc.sequence == doc.sequence - 1) = false := by
        cases hb : store.any (fun r => r.dataHubId == hubHash &&
          r.id == idHash && r.doc.sequence == doc.sequence - 1)
        · rfl
        · exact absurd hb hany
      exact Or.inr ⟨hany', h.1.symm⟩

/-- The store returned by `api.update` is one of: untouched (an error
path), the conditional modification of the matching records, or the store
with the upserted record appended. -/
theorem apiUpdate_store_cases (store : DocStore) (now : Int) (hub : JStr)
    (doc : Doc) :
    (apiUpdate store now hub doc).2 = store ∨
    (apiUpdate store now hub doc).2 = store.map (fun r =>
      if r.dataHubId == dbHash hub && r.id == dbHash doc.id &&
          r.doc.sequence == doc.sequence - 1 then
        applyDocSet doc now (buildUniqueAttributesIndex doc) r
      else r) ∨
    (apiUpdate store now hub doc).2 = store ++ [{
      dataHubId := dbHash hub
      id := dbHash doc.id
      meta := { created := now, updated := now }
      doc := doc
      uniqueAttributes :=
        if (buildUniqueAttributesIndex doc).length > 0 then
          some (buildUniqueAttributesIndex doc)
        else none }] := by
  by_cases h1 : assert128BitId doc.id = false
  · left; simp [apiUpdate, h1]
  · by_cases h2 : doc.sequence < 0
    · left; simp [apiUpdate, h1, h2]
    · cases hm : mongoDocUpsert store now (dbHash hub) (dbHash doc.id) doc
          (buildUniqueAttributesIndex doc) with
      | error e =>
        left
        cases e <;> simp [apiUpdate, h1, h2, hm]
      | ok p =>
        obtain ⟨st, n⟩ := p
        rcases mongoDocUpsert_ok_store hm with ⟨_, hst⟩ | ⟨_, hst⟩
        · by_cases hn : 0 < n
          · right; left; rw [← hst]; simp [apiUpdate, h1, h2, hm, hn]
          · left; simp [apiUpdate, h1, h2, hm, hn]
        · by_cases hn : 0 < n
          · right; right; rw [← hst]; simp [apiUpdate, h1, h2, hm, hn]
          · left; simp [apiUpdate, h1, h2, hm, hn]

/-- The chunk store returned by `api.updateChunk` is one of: untouched, the
modification of the records under the chunk's key, or the store with the
fresh chunk record appended. -/
theorem apiUpdateChunk_store_cases (docs : DocStore) (chunks : ChunkStore)
    (now : Int) (hub docId : JStr) (chunk : Chunk) :
    (apiUpdateChunk docs chunks now hub docId chunk).2 = chunks ∨
    (apiUpdateChunk docs chunks now hub docId chunk).2 = chunks.map (fun r =>
      if r.dataHubId == dbHash hub && r.docId == dbHash docId &&
          r.chunk.index == chunk.index then
        { r with
          chunk := chunk
          meta := { r.meta with updated := now } }
      else r) ∨
    (apiUpdateChunk docs chunks now hub docId chunk).2 = chunks ++ [{
      dataHubId := dbHash hub
      docId := dbHash docId
      meta := { created := now, updated := now }
      chunk := chunk }] := by
  by_cases h1 : assert128BitId docId = false
  · left; simp [apiUpdateChunk, h1]
  · by_cases h2 : chunk.index < 0
    · left; simp [apiUpdateChunk, h1, h2]
    · by_cases h3 : chunk.offset < 0
      · left; simp [apiUpdateChunk, h1, h2, h3]
      · by_cases h4 : chunk.sequence < 0
        · left; simp [apiUpdateChunk, h1, h2, h3, h4]
        · cases hg : apiGet docs hub docId with
          | error e => left; simp [apiUpdateChunk, h1, h2, h3, h4, hg]
          | ok parent =>
            by_cases h5 : chunk.sequence ≠ parent.doc.sequence
            · left; simp [apiUpdateChunk, h1, h2, h3, h4, hg, h5]
            · by_cases h6 : chunks.any (fun r => r.dataHubId == dbHash hub &&
                  r.docId == dbHash docId &&
                  r.chunk.index == chunk.index) = true
              · right; left
                simp [apiUpdateChunk, h1, h2, h3, h4, hg, h5, h6]
              · right; right
                simp [apiUpdateChunk, h1, h2, h3, h4, hg, h5, h6]

/-- C8 (confirmed): hub isolation. For distinct hubs `A ≠ B`: `get` on A
for an id with no A-record fails `NotFoundError` even when hub B stores
that id; `find` on A only returns A-records (so never a B-document);
`update` and `remove` on A leave the records of hub B exactly as they
were; `updateChunk` and `removeChunk` on A leave B's chunks unchanged; and
`getChunk` on A never returns a B-chunk. Every lookup key embeds
`hash(dataHubId)`, and the digest is collision-free. -/
theorem C8_hub_isolation (A B : JStr) (hAB : A ≠ B) :
    (∀ docs id, assert128BitId id = true →
      (∀ r ∈ docs, r.id = dbHash id → r.dataHubId ≠ dbHash A) →
      apiGet docs A id = .error (.bedrock "NotFoundError" 404)) ∧
    (∀ docs q rs, apiFind docs A q = .ok rs →
      ∀ r ∈ rs, r.dataHubId ≠ dbHash B) ∧
    (∀ docs now doc,
      ((apiUpdate docs now A doc).2).filter
          (fun r => r.dataHubId == dbHash B) =
        docs.filter (fun r => r.dataHubId == dbHash B)) ∧
    (∀ docs id,
      ((apiRemove docs A id).2).filter (fun r => r.dataHubId == dbHash B) =
        docs.filter (fun r => r.dataHubId == dbHash B)) ∧
    (∀ docs chunks now docId chunk,
      ((apiUpdateChunk docs chunks now A docId chunk).2).filter
          (fun r => r.dataHubId == dbHash B) =
        chunks.filter (fun r => r.dataHubId == dbHash B)) ∧
    (∀ chunks docId ci r, apiGetChunk chunks A docId ci = .ok r →
      r.dataHubId ≠ dbHash B) ∧
    (∀ chunks docId ci,
      ((apiRemoveChunk chunks A docId ci).2).filter
          (fun r => r.dataHubId == dbHash B) =
        chunks.filter (fun r => r.dataHubId == dbHash B)) := by
  have hh : dbHash A ≠ dbHash B := fun h => hAB (dbHash_inj h)
  have hh' : dbHash B ≠ dbHash A := fun h => hh h.symm
  refine ⟨?_, ?_, ?_, ?_, ?_, ?_, ?_⟩
  · -- get
    intro docs id hid habs
    have h1 : docs.find?
        (fun r => r.dataHubId == dbHash A && r.id == dbHash id) = none := by
      apply List.find?_eq_none.mpr
      intro r hr
      simp only [Bool.and_eq_true, beq_iff_eq, not_and]
      intro hhub hid2
      exact habs r hr hid2 hhub
    simp [apiGet, hid, h1]
  · -- find
    intro docs q rs hfind r hr
    have hmem : r ∈ docs.filter (fun s => s.dataHubId == dbHash A &&
        docQueryMatches q s.doc) := by
      cases q with
      | hasq i names =>
        simp only [apiFind, Except.ok.injEq] at hfind
        rwa [hfind]
      | orq brs =>
        cases brs with
        | nil => simp [apiFind] at hfind
        | cons hd tl =>
          simp only [apiFind, Except.ok.injEq] at hfind
          rwa [hfind]
    have := (List.mem_filter.mp hmem).2
    have hA : r.dataHubId = dbHash A := by
      simp only [Bool.and_eq_true, beq_iff_eq] at this
      exact this.1
    rw [hA]
    exact fun h => hh h
  · -- update
    intro docs now doc
    rcases apiUpdate_store_cases docs now A doc with h | h | h <;> rw [h]
    · apply filter_map_fix
      · intro a _ hp
        have ha : a.dataHubId = dbHash B := by simpa using hp
        have hne : (a.dataHubId == dbHash A) = false :=
          beq_false_of_ne (by rw [ha]; exact hh')
        simp [hne]
      · intro a _ hp
        by_cases hm : (a.dataHubId == dbHash A && a.id == dbHash doc.id &&
            a.doc.sequence == doc.sequence - 1) = true
        · simpa [hm, applyDocSet] using hp
        · simp only [Bool.not_eq_true] at hm
          simp [hm, hp]
    · rw [List.filter_append]
      have hrec : ((⟨dbHash A, dbHash doc.id, ⟨now, now⟩, doc,
          if (buildUniqueAttributesIndex doc).length > 0 then
            some (buildUniqueAttributesIndex doc)
          else none⟩ : DocRecord).dataHubId == dbHash B) = false :=
        beq_false_of_ne hh
      simp [hrec]
  · -- remove
    intro docs id
    by_cases hv : assert128BitId id = false
    · simp [apiRemove, hv]
    · have hr : (apiRemove docs A id).2 = docs.filter
          (fun r => !(r.dataHubId == dbHash A && r.id == dbHash id)) := by
        simp [apiRemove, hv]
      rw [hr, List.filter_filter]
      apply List.filter_congr
      intro a _
      by_cases hp : (a.dataHubId == dbHash B) = true
      · have ha : a.dataHubId = dbHash B := by simpa using hp
        have hne : (a.dataHubId == dbHash A) = false :=
          beq_false_of_ne (by rw [ha]; exact hh')
        simp [hp, hne]
      · simp only [Bool.not_eq_true] at hp
        simp [hp]
  · -- updateChunk
    intro docs chunks now docId chunk
    rcases apiUpdateChunk_store_cases docs chunks now A docId chunk
      with h | h | h <;> rw [h]
    · apply filter_map_fix
      · intro a _ hp
        have ha : a.dataHubId = dbHash B := by simpa using hp
        have hne : (a.dataHubId == dbHash A) = false :=
          beq_false_of_ne (by rw [ha]; exact hh')
        simp [hne]
      · intro a _ hp
        by_cases hm : (a.dataHubId == dbHash A && a.docId == dbHash docId &&
            a.chunk.index == chunk.index) = true
        · simpa [hm] using hp
        · simp only [Bool.not_eq_true] at hm
          simp [hm, hp]
    · rw [List.filter_append]
      have hrec : ((⟨dbHash A, dbHash docId, ⟨now, now⟩, chunk⟩ :
          ChunkRecord).dataHubId == dbHash B) = false :=
        beq_false_of_ne hh
      simp [hrec]
  · -- getChunk
    intro chunks docId ci r hok
    by_cases hv : assert128BitId docId = false
    · simp [apiGetChunk, hv] at hok
    · by_cases hci : ci < 0
      · simp [apiGetChunk, hv, hci] at hok
      · cases hf : chunks.find? (fun s => s.dataHubId == dbHash A &&
            s.docId == dbHash docId && s.chunk.index == ci) with
        | none => simp [apiGetChunk, hv, hci, hf] at hok
        | some s =>
          have hsr : s = r := by
            simpa [apiGetChunk, hv, hci, hf] using hok
          have hp := List.find?_some hf
          have hA : s.dataHubId = dbHash A := by
            simp only [Bool.and_eq_true, beq_iff_eq] at hp
            exact hp.1.1
          rw [← hsr, hA]
          exact fun h => hh h
  · -- removeChunk
    intro chunks docId ci
    by_cases hv : assert128BitId docId = false
    · simp [apiRemoveChunk, hv]
    · by_cases hci : ci < 0
      · simp [apiRemoveChunk, hv, hci]
      · have hr : (apiRemoveChunk chunks A docId ci).2 = chunks.filter
            (fun r => !(r.dataHubId == dbHash A && r.docId == dbHash docId &&
              r.chunk.index == ci)) := by
          simp [apiRemoveChunk, hv, hci]
        rw [hr, List.filter_filter]
        apply List.filter_congr
        intro a _
        by_cases hp : (a.dataHubId == dbHash B) = true
        · have ha : a.dataHubId = dbHash B := by simpa using hp
          have hne : (a.dataHubId == dbHash A) = false :=
            beq_false_of_ne (by rw [ha]; exact hh')
          simp [hp, hne]
        · simp only [Bool.not_eq_true] at hp
          simp [hp]

/-- `docA4` stored in hub `hubB`. -/
def recB : DocRecord := {
  dataHubId := dbHash (js "hubB")
  id := dbHash zidA
  meta := { created := 0, updated := 0 }
  doc := docA4
  uniqueAttributes := none }

/-- Witness for C8: with `docA4` stored only in hub `hubB`, `get` on hub
`hubA` fails `NotFoundError`, and an update against `hubA` leaves `hubB`'s
records exactly as they were. -/
theorem C8_hub_isolation_witness :
    apiGet [recB] (js "hubA") zidA = .error (.bedrock "NotFoundError" 404) ∧
    ((apiUpdate [recB] 1 (js "hubA") docA4).2).filter
        (fun r => r.dataHubId == dbHash (js "hubB")) =
      [recB].filter (fun r => r.dataHubId == dbHash (js "hubB")) := by
  have h := C8_hub_isolation (js "hubA") (js "hubB") (by decide)
  exact ⟨h.1 [recB] zidA (by decide) (by decide), h.2.2.1 [recB] 1 docA4⟩

/-! ## C3, amended -/

/-- A successful `api.update` is exactly a successful Mongo upsert. -/
theorem apiUpdate_ok_store {store : DocStore} {now : Int} {hub : JStr}
    {doc : Doc} {st' : DocStore}
    (h : apiUpdate store now hub doc = (.ok true, st')) :
    ∃ n, mongoDocUpsert store now (dbHash hub) (dbHash doc.id) doc
      (buildUniqueAttributesIndex doc) = .ok (st', n) := by
  by_cases h1 : assert128BitId doc.id = false
  · simp [apiUpdate, h1] at h
  · by_cases h2 : doc.sequence < 0
    · simp [apiUpdate, h1, h2] at h
    · cases hm : mongoDocUpsert store now (dbHash hub) (dbHash doc.id) doc
          (buildUniqueAttributesIndex doc) with
      | error e => cases e <;> simp [apiUpdate, h1, h2, hm] at h
      | ok p =>
        obtain ⟨st, n⟩ := p
        by_cases hn : 0 < n
        · refine ⟨n, ?_⟩
          have hst : st = st' := by
            simpa [apiUpdate, h1, h2, hm, hn] using h
          subst hst
          rfl
        · simp [apiUpdate, h1, h2, hm, hn] at h

/-- The `uniqueAttributes` value the `$set` / insert writes, rephrased by
emptiness of the projection (`d` is the field's fallback value: `none` on
insert paths, the record's previous value on the update path). -/
theorem uaField_eq (ua : List JStr) (d : Option (List JStr)) :
    (if ua.length > 0 then some ua else d) =
      (if ua = [] then d else some ua) := by
  cases ua <;> simp

/-- C3, amended. For every document: `insert` stores exactly the
projection and omits the field when the projection is empty — likewise the
fresh-record (upsert) path of `update`. On the update path over an existing
record, the field is set to the projection only when the projection is
nonempty; an empty projection leaves the record's previous
`uniqueAttributes` in place. -/
theorem C3_uniqueAttributes_projection (store : DocStore) (now : Int)
    (hub : JStr) (doc : Doc) :
    (∀ r st', apiInsert store now hub doc = (.ok r, st') →
      st' = store ++ [r] ∧
      r.uniqueAttributes =
        (if buildUniqueAttributesIndex doc = [] then none
         else some (buildUniqueAttributesIndex doc))) ∧
    (∀ st', apiUpdate store now hub doc = (.ok true, st') →
      (∀ r ∈ store, r.dataHubId = dbHash hub → r.id = dbHash doc.id →
        r.doc.sequence = doc.sequence - 1 →
          applyDocSet doc now (buildUniqueAttributesIndex doc) r ∈ st' ∧
          (applyDocSet doc now (buildUniqueAttributesIndex doc)
              r).uniqueAttributes =
            (if buildUniqueAttributesIndex doc = [] then r.uniqueAttributes
             else some (buildUniqueAttributesIndex doc))) ∧
      ((∀ r ∈ store, ¬(r.dataHubId = dbHash hub ∧ r.id = dbHash doc.id ∧
          r.doc.sequence = doc.sequence - 1)) →
        ∃ r' ∈ st', r'.dataHubId = dbHash hub ∧ r'.id = dbHash doc.id ∧
          r'.doc = doc ∧
          r'.uniqueAttributes =
            (if buildUniqueAttributesIndex doc = [] then none
             else some (buildUniqueAttributesIndex doc)))) := by
  constructor
  · intro r st' h
    by_cases h1 : assert128BitId doc.id = false
    · simp [apiInsert, h1] at h
    · by_cases h2 : doc.sequence < 0
      · simp [apiInsert, h1, h2] at h
      · by_cases h3 : docInsertConflict store
            ⟨dbHash hub, dbHash doc.id, ⟨now, now⟩, doc,
              if (buildUniqueAttributesIndex doc).length > 0 then
                some (buildUniqueAttributesIndex doc) else none⟩ = true
        · simp [apiInsert, h1, h2, h3] at h
        · have hred : apiInsert store now hub doc =
              (.ok ⟨dbHash hub, dbHash doc.id, ⟨now, now⟩, doc,
                if (buildUniqueAttributesIndex doc).length > 0 then
                  some (buildUniqueAttributesIndex doc) else none⟩,
               store ++ [⟨dbHash hub, dbHash doc.id, ⟨now, now⟩, doc,
                if (buildUniqueAttributesIndex doc).length > 0 then
                  some (buildUniqueAttributesIndex doc) else none⟩]) := by
            simp [apiInsert, h1, h2, h3]
          rw [hred, Prod.mk.injEq] at h
          obtain ⟨hr, hst⟩ := h
          injection hr with hr
          subst hr
          exact ⟨hst.symm, uaField_eq (buildUniqueAttributesIndex doc) none⟩
  · intro st' h
    obtain ⟨n, hm⟩ := apiUpdate_ok_store h
    rcases mongoDocUpsert_ok_store hm with ⟨hany, hst⟩ | ⟨hany, hst⟩
    · constructor
      · intro r hr hd hi hs
        have hmr : (r.dataHubId == dbHash hub && r.id == dbHash doc.id &&
            r.doc.sequence == doc.sequence - 1) = true := by
          simp [hd, hi, hs]
        constructor
        · rw [hst]
          exact List.mem_map.mpr ⟨r, hr, by rw [if_pos hmr]⟩
        · simp only [applyDocSet]
          exact uaField_eq (buildUniqueAttributesIndex doc) r.uniqueAttributes
      · intro habs
        obtain ⟨r, hr, hmr⟩ := List.any_eq_true.mp hany
        have := habs r hr
        simp only [Bool.and_eq_true, beq_iff_eq, and_assoc] at hmr
        exact absurd hmr this
    · constructor
      · intro r hr hd hi hs
        have : store.any (fun r => r.dataHubId == dbHash hub &&
            r.id == dbHash doc.id &&
            r.doc.sequence == doc.sequence - 1) = true :=
          List.any_eq_true.mpr ⟨r, hr, by simp [hd, hi, hs]⟩
        rw [hany] at this
        exact absurd this (by simp)
      · intro _
        refine ⟨⟨dbHash hub, dbHash doc.id, ⟨now, now⟩, doc,
          if (buildUniqueAttributesIndex doc).length > 0 then
            some (buildUniqueAttributesIndex doc) else none⟩, ?_, rfl, rfl,
          rfl, uaField_eq (buildUniqueAttributesIndex doc) none⟩
        rw [hst]
        exact List.mem_append_right _ (by simp)

/-- The record stored for `docU0`. -/
def recU0 : DocRecord := {
  dataHubId := dbHash (js "hubA")
  id := dbHash zidA
  meta := { created := 0, updated := 0 }
  doc := docU0
  uniqueAttributes := some [dbHash (js "k1") ++ ':' :: (js "n" ++ ':' :: js "v")] }

/-- Witness for the amended C3 at a concrete insert. -/
theorem C3_uniqueAttributes_projection_witness :
    [recU0] = [] ++ [recU0] ∧
    recU0.uniqueAttributes =
      (if buildUniqueAttributesIndex docU0 = [] then none
       else some (buildUniqueAttributesIndex docU0)) :=
  (C3_uniqueAttributes_projection [] 0 (js "hubA") docU0).1 recU0 [recU0]
    (by decide)

/-! ## C4 -/

/-- A document whose hmac-id match and attribute match come from DIFFERENT
indexed entries: the entry under `i1` has no attributes at all, while the
entry under `i2` carries `n = v`. -/
def docCross : Doc := {
  id := zidB
  sequence := 0
  jwe := js "ct3"
  indexed := some [
    ⟨⟨js "i1", js "t"⟩, 0, some []⟩,
    ⟨⟨js "i2", js "t"⟩, 0, some [⟨js "n", js "v", false⟩]⟩] }

/-- `docCross` stored in hub `hubA`. -/
def recCross : DocRecord := {
  dataHubId := dbHash (js "hubA")
  id := dbHash zidB
  meta := { created := 0, updated := 0 }
  doc := docCross
  uniqueAttributes := none }

/-- A document with a single entry under `i1` whose two attributes carry
`a = 1` and `b = 2` (no single attribute carries both). -/
def docTwoAttrs : Doc := {
  id := zidB
  sequence := 0
  jwe := js "ct4"
  indexed := some [
    ⟨⟨js "i1", js "t"⟩, 0,
      some [⟨js "a", js "1", false⟩, ⟨js "b", js "2", false⟩]⟩] }

/-- `docTwoAttrs` stored in hub `hubA`. -/
def recTwoAttrs : DocRecord := {
  dataHubId := dbHash (js "hubA")
  id := dbHash zidB
  meta := { created := 0, updated := 0 }
  doc := docTwoAttrs
  uniqueAttributes := none }

/-- The claim's `has` semantics, stated from the spec's words ("contain an
`indexed` entry with `hmac.id = index` and some attribute named `n`",
within that same entry). -/
def specHasMatch (index : JStr) (has : List JStr) (doc : Doc) : Prop :=
  ∃ e ∈ doc.indexed.getD [], e.hmac.id = index ∧
    ∀ n ∈ has, ∃ a ∈ e.attributes.getD [], a.name = n

/-- The claim's `equals` semantics, stated from the spec's words: some
element of `equals` is matched by an entry with the queried hmac id whose
attributes array contains ONE element matching all of that element's
`(name, value)` pairs. -/
def specEqualsMatch (index : JStr) (equals : List (List (JStr × JStr)))
    (doc : Doc) : Prop :=
  ∃ e ∈ equals, ∃ entry ∈ doc.indexed.getD [], entry.hmac.id = index ∧
    ∃ a ∈ entry.attributes.getD [], ∀ p ∈ e, a.name = p.1 ∧ a.value = p.2

instance (index : JStr) (has : List JStr) (doc : Doc) :
    Decidable (specHasMatch index has doc) := by
  unfold specHasMatch; infer_instance

instance (index : JStr) (equals : List (List (JStr × JStr))) (doc : Doc) :
    Decidable (specEqualsMatch index equals doc) := by
  unfold specEqualsMatch; infer_instance

/-- C4 counterexample. (1) With only `docCross` stored, the query
`{index: i1, has: [n]}` RETURNS the document although no single indexed
entry has both hmac id `i1` and an attribute named `n`: Mongo evaluates the
two conditions across different elements of the multikey `indexed` array.
(2) With only `docTwoAttrs` stored, `{index: i1, equals: [{a:1, b:2}]}`
RETURNS the document although no single attribute element matches both
pairs: each `$elemMatch` of the `$all` is satisfied independently. -/
theorem C4_counterexample :
    (queryRoute [recCross] (js "hubA") (js "i1") none [js "n"] =
      .ok [docCross] ∧
     ¬ specHasMatch (js "i1") [js "n"] docCross) ∧
    (queryRoute [recTwoAttrs] (js "hubA") (js "i1")
        (some [[(js "a", Jval.str (js "1")), (js "b", Jval.str (js "2"))]])
        [] = .ok [docTwoAttrs] ∧
     ¬ specEqualsMatch (js "i1") [[(js "a", js "1"), (js "b", js "2")]]
        docTwoAttrs) := by
  refine ⟨⟨by decide, by decide⟩, ⟨by decide, by decide⟩⟩

/-- The `has` query shape, unfolded to its cross-entry meaning. -/
theorem hasqMatches_iff (index : JStr) (names : List JStr) (d : Doc) :
    docQueryMatches (.hasq index names) d = true ↔
      ((∃ e ∈ d.indexed.getD [], e.hmac.id = index) ∧ names ≠ [] ∧
        ∀ n ∈ names, ∃ e ∈ d.indexed.getD [],
          ∃ a ∈ e.attributes.getD [], a.name = n) := by
  simp [docQueryMatches, hmacIdMatches, attrNamesAll, List.any_eq_true,
    List.all_eq_true, and_assoc]

/-- The `equals` query shape, unfolded to its cross-entry meaning. -/
theorem orqMatches_iff (branches : List (JStr × List (JStr × JStr)))
    (d : Doc) :
    docQueryMatches (.orq branches) d = true ↔
      ∃ br ∈ branches, (∃ e ∈ d.indexed.getD [], e.hmac.id = br.1) ∧
        br.2 ≠ [] ∧ ∀ p ∈ br.2, ∃ e ∈ d.indexed.getD [],
          ∃ a ∈ e.attributes.getD [], a.name = p.1 ∧ a.value = p.2 := by
  simp [docQueryMatches, hmacIdMatches, attrElemAll, List.any_eq_true,
    List.all_eq_true, and_assoc]

/-- C4, amended. `find` scopes every query to the hub, and the translated
queries carry MongoDB's multikey semantics rather than same-entry
semantics: `{index, has}` matches a document iff SOME entry carries the
hmac id and, for each requested name, SOME — possibly different — entry
carries an attribute with that name (`has` nonempty); for
`{index, equals}` (values all strings) the elements are combined by
disjunction, and an element matches iff some entry carries the hmac id and
each of its `(name, value)` pairs is carried by an attribute of some —
possibly different — entry (the element nonempty). -/
theorem C4_query_semantics (store : DocStore) (hub index : JStr) :
    (∀ has docs', queryRoute store hub index none has = .ok docs' →
      ∀ d, d ∈ docs' ↔ ∃ r ∈ store, r.dataHubId = dbHash hub ∧ r.doc = d ∧
        ((∃ e ∈ d.indexed.getD [], e.hmac.id = index) ∧ has ≠ [] ∧
          ∀ n ∈ has, ∃ e ∈ d.indexed.getD [],
            ∃ a ∈ e.attributes.getD [], a.name = n)) ∧
    (∀ (eqs : List (List (JStr × JStr))) docs',
      queryRoute store hub index
        (some (eqs.map (fun e => e.map (fun kv => (kv.1, Jval.str kv.2)))))
        [] = .ok docs' →
      ∀ d, d ∈ docs' ↔ ∃ r ∈ store, r.dataHubId = dbHash hub ∧ r.doc = d ∧
        ∃ e ∈ eqs, (∃ en ∈ d.indexed.getD [], en.hmac.id = index) ∧
          e ≠ [] ∧ ∀ p ∈ e, ∃ en ∈ d.indexed.getD [],
            ∃ a ∈ en.attributes.getD [], a.name = p.1 ∧ a.value = p.2) := by
  constructor
  · intro has docs' h d
    have hred : queryRoute store hub index none has =
        .ok ((store.filter (fun r => r.dataHubId == dbHash hub &&
          docQueryMatches (.hasq index has) r.doc)).map (fun r => r.doc)) :=
      rfl
    rw [hred] at h
    injection h with h
    subst h
    simp only [List.mem_map, List.mem_filter, Bool.and_eq_true, beq_iff_eq,
      hasqMatches_iff]
    constructor
    · rintro ⟨r, ⟨hr, hhub, hmat⟩, rfl⟩
      exact ⟨r, hr, hhub, rfl, hmat⟩
    · rintro ⟨r, hr, hhub, rfl, hmat⟩
      exact ⟨r, ⟨hr, hhub, hmat⟩, rfl⟩
  · intro eqs docs' h d
    have hall : ((eqs.map (fun e => e.map fun kv => (kv.1, Jval.str kv.2)))).all
        (fun e => e.all fun kv =>
          match kv.2 with | .str _ => true | _ => false) = true := by
      rw [List.all_eq_true]
      intro e' he'
      obtain ⟨e, _, rfl⟩ := List.mem_map.mp he'
      rw [List.all_eq_true]
      intro kv hkv
      obtain ⟨kv0, _, rfl⟩ := List.mem_map.mp hkv
      rfl
    have hstrip :
        (eqs.map (fun e => e.map (fun kv => (kv.1, Jval.str kv.2)))).map
          (fun e => (index, e.map (fun kv => (kv.1,
            match kv.2 with | Jval.str s => s | _ => ([] : JStr))))) =
        eqs.map (fun e => (index, e)) := by
      rw [List.map_map]
      refine List.map_eq_map_iff.mpr ?_
      intro e _
      simp only [Function.comp_apply]
      rw [List.map_map]
      have hid : e.map ((fun kv : JStr × Jval => (kv.1,
          match kv.2 with | Jval.str s => s | _ => ([] : JStr))) ∘
            (fun kv : JStr × JStr => (kv.1, Jval.str kv.2))) =
          e.map id :=
        List.map_eq_map_iff.mpr (fun kv _ => rfl)
      rw [hid, List.map_id]
    have hq : buildDocQuery index
        (some (eqs.map (fun e => e.map (fun kv => (kv.1, Jval.str kv.2)))))
        [] = .ok (.orq (eqs.map (fun e => (index, e)))) := by
      simp only [buildDocQuery]
      rw [if_pos hall, hstrip]
    cases heqs : eqs with
    | nil =>
      subst heqs
      rw [queryRoute, hq] at h
      simp [apiFind] at h
    | cons e0 etl =>
      have hbr : (eqs.map (fun e => (index, e))) =
          (index, e0) :: etl.map (fun e => (index, e)) := by rw [heqs]; rfl
      rw [queryRoute, hq, hbr] at h
      simp only [apiFind] at h
      injection h with h
      subst h
      rw [← hbr, ← heqs]
      simp only [List.mem_map, List.mem_filter, Bool.and_eq_true,
        beq_iff_eq, orqMatches_iff]
      constructor
      · rintro ⟨r, ⟨hr, hhub, hmat⟩, rfl⟩
        obtain ⟨br, hbrm, hmm⟩ := hmat
        obtain ⟨e, he, rfl⟩ := hbrm
        exact ⟨r, hr, hhub, rfl, e, he, hmm⟩
      · rintro ⟨r, hr, hhub, rfl, e, he, hmm⟩
        exact ⟨r, ⟨hr, hhub, (index, e), ⟨e, he, rfl⟩, hmm⟩, rfl⟩

/-- Witness for the amended C4 at the `docCross` store. -/
theorem C4_query_semantics_witness :
    docCross ∈ [docCross] ↔
      ∃ r ∈ [recCross], r.dataHubId = dbHash (js "hubA") ∧
        r.doc = docCross ∧
        ((∃ e ∈ docCross.indexed.getD [], e.hmac.id = js "i1") ∧
          [js "n"] ≠ [] ∧
          ∀ n ∈ [js "n"], ∃ e ∈ docCross.indexed.getD [],
            ∃ a ∈ e.attributes.getD [], a.name = n) :=
  (C4_query_semantics [recCross] (js "hubA") (js "i1")).1 [js "n"]
    [docCross] (by decide) docCross

/-! ## C6, amended -/

/-- C6, amended. `getInvokedCapability` materializes the capability
dynamically iff the declared id PARSES as a root zcap URL — regardless of
whether it equals `expectedRootCapability`, a value the function never
receives: on a parse, the zcap is built from the parsed hub's config. An
id that does not parse is looked up in delegated storage keyed by
`(id, invocationTarget = expectedTarget)`: a miss fails with
`NotAllowedError (400)`, a hit returns the stored capability. -/
theorem C6_capability_resolution (cfgStore : ConfigStore)
    (authStore : AuthStore) (baseUri id expectedTarget : JStr) :
    (∀ target hubId r,
      getInvocationTarget baseUri id = some (target, hubId) →
      apiGetConfig cfgStore hubId = .ok r →
      getInvokedCapability cfgStore authStore baseUri id expectedTarget =
        .ok {
          context := js "https://w3id.org/security/v2"
          id := id
          invocationTarget := target
          controller := r.config.controller
          invoker := r.config.invoker
          delegator := r.config.delegator }) ∧
    (getInvocationTarget baseUri id = none →
      ((∀ a ∈ authStore,
          ¬(a.id = id ∧ a.invocationTarget = expectedTarget)) →
        getInvokedCapability cfgStore authStore baseUri id expectedTarget =
          .error (.bedrock "NotAllowedError" 400)) ∧
      (∀ a, authStore.find? (fun a => a.id == id &&
          a.invocationTarget == expectedTarget) = some a →
        getInvokedCapability cfgStore authStore baseUri id expectedTarget =
          .ok a.capability)) := by
  constructor
  · intro target hubId r hparse hcfg
    simp [getInvokedCapability, generateRootCapability, hparse, hcfg]
  · intro hparse
    constructor
    · intro habs
      have hf : authStore.find? (fun a => a.id == id &&
          a.invocationTarget == expectedTarget) = none := by
        apply List.find?_eq_none.mpr
        intro a ha
        have h2 := habs a ha
        simp only [Bool.and_eq_true, beq_iff_eq]
        tauto
      simp [getInvokedCapability, generateRootCapability, hparse, hf]
    · intro a hf
      simp [getInvokedCapability, generateRootCapability, hparse, hf]

/-- Witness for the amended C6: hub `h1`'s root zcap URL materializes from
`h1`'s config, and a non-parsing id over an empty delegated store fails
`NotAllowedError`. -/
theorem C6_capability_resolution_witness :
    getInvokedCapability [cfgRecH1] [] baseX
        (js "https://x/data-hubs/h1/zcaps/query")
        (js "https://x/data-hubs/h1/query") =
      .ok {
        context := js "https://w3id.org/security/v2"
        id := js "https://x/data-hubs/h1/zcaps/query"
        invocationTarget := js "https://x/data-hubs/h1/query"
        controller := cfgH1.controller
        invoker := cfgH1.invoker
        delegator := cfgH1.delegator } ∧
    getInvokedCapability [cfgRecH1] [] baseX (js "urn:zcap:delegated:abc")
        (js "https://x/data-hubs/h1/query") =
      .error (.bedrock "NotAllowedError" 400) := by
  constructor
  · exact (C6_capability_resolution [cfgRecH1] [] baseX
      (js "https://x/data-hubs/h1/zcaps/query")
      (js "https://x/data-hubs/h1/query")).1
      (js "https://x/data-hubs/h1/query") (js "https://x/data-hubs/h1")
      cfgRecH1 (by decide) (by decide)
  · exact ((C6_capability_resolution [cfgRecH1] [] baseX
      (js "urn:zcap:delegated:abc")
      (js "https://x/data-hubs/h1/query")).2 (by decide)).1 (by simp)

/-! ## C5: scan lemmas for the URL parser -/

/-- `isPrefixOf` as an append decomposition. -/
theorem isPrefixOf_eq_true_iff {pat s : JStr} :
    pat.isPrefixOf s = true ↔ ∃ t, s = pat ++ t := by
  induction pat generalizing s with
  | nil => simp [List.isPrefixOf]
  | cons c cs ih =>
    cases s with
    | nil => simp [List.isPrefixOf]
    | cons b bs =>
      simp only [List.isPrefixOf, Bool.and_eq_true, beq_iff_eq, ih,
        List.cons_append, List.cons.injEq]
      constructor
      · rintro ⟨rfl, t, rfl⟩; exact ⟨t, rfl, rfl⟩
      · rintro ⟨t, rfl, rfl⟩; exact ⟨rfl, t, rfl⟩

/-- When the pattern matches immediately, the scan stops right away. -/
theorem findIdxMatchAux_of_isPrefixOf {pat s : JStr} (k : Nat)
    (h : pat.isPrefixOf s = true) : findIdxMatchAux pat s k = some k := by
  cases s with
  | nil =>
    cases pat with
    | nil => rfl
    | cons c cs => simp [List.isPrefixOf] at h
  | cons c rest =>
    rw [findIdxMatchAux, if_pos h]

/-- Scanning over a region with no match lands on the occurrence that
follows it. -/
theorem findIdxMatchAux_of_decomp (pat u v : JStr) (k : Nat)
    (hmin : ∀ i < u.length,
      pat.isPrefixOf ((u ++ (pat ++ v)).drop i) = false) :
    findIdxMatchAux pat (u ++ (pat ++ v)) k = some (k + u.length) := by
  induction u generalizing k with
  | nil =>
    simp only [List.nil_append, List.length_nil, Nat.add_zero]
    exact findIdxMatchAux_of_isPrefixOf k (isPrefixOf_eq_true_iff.mpr ⟨v, rfl⟩)
  | cons c u' ih =>
    have h0 := hmin 0 (by simp)
    simp only [List.drop_zero] at h0
    have h0' : pat.isPrefixOf (c :: (u' ++ (pat ++ v))) = false := h0
    rw [List.cons_append, findIdxMatchAux,
      if_neg (by rw [h0']; exact Bool.false_ne_true)]
    have hrec := ih (k + 1) (fun i hi => by
      have hstep := hmin (i + 1) (by simpa using Nat.succ_lt_succ hi)
      simpa using hstep)
    rw [hrec]
    congr 1
    simp only [List.length_cons]
    omega

/-- A successful scan decomposes the string at the first occurrence. -/
theorem findIdxMatchAux_some_decomp {pat s : JStr} {k j : Nat}
    (h : findIdxMatchAux pat s k = some j) :
    k ≤ j ∧ ∃ u v, s = u ++ (pat ++ v) ∧ u.length = j - k ∧
      ∀ i < u.length, pat.isPrefixOf (s.drop i) = false := by
  induction s generalizing k with
  | nil =>
    by_cases hp : pat.isPrefixOf ([] : JStr) = true
    · rw [findIdxMatchAux, if_pos hp] at h
      injection h with h
      subst h
      obtain ⟨t, ht⟩ := isPrefixOf_eq_true_iff.mp hp
      have hpat : pat = [] := by
        cases pat
        · rfl
        · simp at ht
      subst hpat
      exact ⟨le_rfl, [], [], by simp, by simp, by simp⟩
    · rw [findIdxMatchAux, if_neg hp] at h
      exact absurd h (by simp)
  | cons c rest ih =>
    by_cases hp : pat.isPrefixOf (c :: rest) = true
    · rw [findIdxMatchAux, if_pos hp] at h
      injection h with h
      subst h
      obtain ⟨t, ht⟩ := isPrefixOf_eq_true_iff.mp hp
      exact ⟨le_rfl, [], t, by simpa using ht, by simp, by simp⟩
    · rw [findIdxMatchAux, if_neg hp] at h
      obtain ⟨hkj, u', v, hdecomp, hlen, hmin⟩ := ih h
      refine ⟨by omega, c :: u', v, by simp [hdecomp], ?_, ?_⟩
      · simp only [List.length_cons, hlen]
        omega
      · intro i hi
        cases i with
        | zero =>
          simp only [List.drop_zero]
          cases hb : pat.isPrefixOf (c :: rest)
          · rfl
          · exact absurd hb hp
        | succ m =>
          simp only [List.drop_succ_cons]
          exact hmin m (by simpa using Nat.lt_of_succ_lt_succ hi)

/-- `drop` through an append of exactly the dropped length. -/
theorem drop_append_exact {a : JStr} (b : JStr) {n : Nat}
    (h : n = a.length) : (a ++ b).drop n = b := by
  subst h
  exact List.drop_left a b

/-- `take` through an append of exactly the taken length. -/
theorem take_append_exact {a : JStr} (b : JStr) {n : Nat}
    (h : n = a.length) : (a ++ b).take n = a := by
  subst h
  exact List.take_left ..

/-- The suffixes the parser accepts after `zcaps/`: the three fixed routes,
or `documents/<d>` with `<d>` nonempty — no 128-bit check on `<d>`. -/
def suffixOk (s : JStr) : Prop :=
  s = js "documents" ∨ s = js "query" ∨ s = js "authorizations" ∨
    ((js "documents/").isPrefixOf s = true ∧ s.length > 10)

/-- C5, amended (parser part): `_getInvocationTarget` accepts exactly the
liberal URL language `<base>/data-hubs/<hubId>/<pre>zcaps/<suffix>`, where
`hubId` is the (possibly empty) segment up to the FIRST slash after
`<base>/data-hubs/`, `pre` is arbitrary filler containing no earlier
occurrence of `zcaps/`, and the suffix after the first `zcaps/` satisfies
`suffixOk`; the hub URL is `<base>/data-hubs/<hubId>` and the invocation
target appends `/<suffix>` to it. -/
theorem C5_invocation_target_iff (baseUri url t d : JStr) :
    getInvocationTarget baseUri url = some (t, d) ↔
      ∃ hubId pre suffix,
        url = (baseUri ++ js "/data-hubs/") ++
          (hubId ++ (js "/" ++ (pre ++ (js "zcaps/" ++ suffix)))) ∧
        '/' ∉ hubId ∧
        (∀ i < pre.length, (js "zcaps/").isPrefixOf
          ((pre ++ (js "zcaps/" ++ suffix)).drop i) = false) ∧
        suffixOk suffix ∧
        d = (baseUri ++ js "/data-hubs/") ++ hubId ∧
        t = d ++ ('/' :: suffix) := by
  constructor
  · intro h
    cases h1 : jsIndexOf url (baseUri ++ js "/data-hubs/") with
    | none =>
      simp only [getInvocationTarget, h1] at h
      exact Option.noConfusion h
    | some n =>
      cases n with
      | succ m =>
        simp only [getInvocationTarget, h1] at h
        exact Option.noConfusion h
      | zero =>
        have h1' : findIdxMatchAux (baseUri ++ js "/data-hubs/") url 0 =
            some 0 := by
          have := h1
          rwa [jsIndexOf, jsIndexOfFrom, List.drop_zero] at this
        obtain ⟨-, u0, v0, hu0, hlen0, -⟩ := findIdxMatchAux_some_decomp h1'
        have hu0nil : u0 = [] := List.length_eq_zero.mp (by omega)
        subst hu0nil
        simp only [List.nil_append] at hu0
        cases h2 : jsIndexOfFrom url (js "/")
            (baseUri ++ js "/data-hubs/").length with
        | none =>
          simp only [getInvocationTarget, h1, h2] at h
          exact Option.noConfusion h
        | some idx =>
          obtain ⟨hki, u, v, hsv, hlenu, hminu⟩ :=
            findIdxMatchAux_some_decomp
              (show findIdxMatchAux (js "/")
                  (url.drop (baseUri ++ js "/data-hubs/").length)
                  (baseUri ++ js "/data-hubs/").length = some idx from h2)
          have hidx : idx = (baseUri ++ js "/data-hubs/").length +
              u.length := by omega
          have hurl2 : url = (baseUri ++ js "/data-hubs/") ++
              (u ++ (js "/" ++ v)) := by
            rw [hu0]
            congr 1
            rw [← hsv, hu0, drop_append_exact _ rfl]
          have hslashfree : '/' ∉ u := by
            intro hmem
            obtain ⟨i, hi, hci⟩ := List.getElem_of_mem hmem
            have hfalse := hminu i (by omega)
            rw [hsv, List.drop_append_of_le_length (by omega),
              List.drop_eq_getElem_cons hi, hci] at hfalse
            simp [List.isPrefixOf, show js "/" = ['/'] from rfl] at hfalse
          cases h3 : jsIndexOfFrom url (js "zcaps/") (idx + 1) with
          | none =>
            simp only [getInvocationTarget, h1, h2, h3] at h
            exact Option.noConfusion h
          | some zidx =>
            obtain ⟨hkz, pre, w, hvz, hlenp, hminp⟩ :=
              findIdxMatchAux_some_decomp
                (show findIdxMatchAux (js "zcaps/") (url.drop (idx + 1))
                    (idx + 1) = some zidx from h3)
            have hzidx : zidx = idx + 1 + pre.length := by omega
            have hdropidx : url.drop (idx + 1) = v := by
              rw [hurl2, hidx]
              have hre : (baseUri ++ js "/data-hubs/") ++
                  (u ++ (js "/" ++ v)) =
                  (((baseUri ++ js "/data-hubs/") ++ u) ++ js "/") ++ v := by
                simp [List.append_assoc]
              rw [hre]
              exact drop_append_exact _ (by
                simp only [List.length_append,
                  show (js "/").length = 1 from rfl])
            have hv : v = pre ++ (js "zcaps/" ++ w) := by
              rw [← hdropidx, hvz]
            have hpath : url.drop (zidx + 6) = w := by
              have hsplit : url.drop (zidx + 6) =
                  (url.drop (idx + 1)).drop (pre.length + 6) := by
                rw [List.drop_drop]
                congr 1
                omega
              rw [hsplit, hdropidx, hv,
                show pre ++ (js "zcaps/" ++ w) =
                  (pre ++ js "zcaps/") ++ w by simp [List.append_assoc]]
              exact drop_append_exact _ (by
                simp only [List.length_append,
                  show (js "zcaps/").length = 6 from rfl])
            simp only [getInvocationTarget, h1, h2, h3] at h
            split at h
            · rename_i hcond
              simp only [Option.some.injEq, Prod.mk.injEq] at h
              obtain ⟨ht, hd⟩ := h
              have hsub : jsSubstring url
                  (baseUri ++ js "/data-hubs/").length idx = u := by
                rw [jsSubstring, hsv]
                exact take_append_exact _ (by omega)
              refine ⟨u, pre, w, ?_, hslashfree, ?_, ?_, ?_, ?_⟩
              · rw [hurl2, hv]
              · intro i hi
                have := hminp i hi
                rwa [hdropidx, hv] at this
              · rcases hcond with hc | hc | hc | hc
                · exact Or.inl (by rw [← hpath]; exact hc)
                · exact Or.inr (Or.inl (by rw [← hpath]; exact hc))
                · exact Or.inr (Or.inr (Or.inl (by rw [← hpath]; exact hc)))
                · refine Or.inr (Or.inr (Or.inr ⟨?_, ?_⟩))
                  · rw [← hpath]; exact hc.1
                  · rw [← hpath]; exact hc.2
              · rw [← hd, hsub]
              · rw [← ht, ← hd, hsub, hpath]
            · exact absurd h (by simp)
  · rintro ⟨hubId, pre, suffix, hurl, hslashfree, hmin, hsuf, hd, ht⟩
    have h1 : jsIndexOf url (baseUri ++ js "/data-hubs/") = some 0 := by
      rw [jsIndexOf, jsIndexOfFrom, List.drop_zero]
      exact findIdxMatchAux_of_isPrefixOf 0
        (isPrefixOf_eq_true_iff.mpr ⟨_, hurl⟩)
    have hdropB : url.drop (baseUri ++ js "/data-hubs/").length =
        hubId ++ (js "/" ++ (pre ++ (js "zcaps/" ++ suffix))) := by
      rw [hurl]
      exact drop_append_exact _ rfl
    have h2 : jsIndexOfFrom url (js "/")
        (baseUri ++ js "/data-hubs/").length =
        some ((baseUri ++ js "/data-hubs/").length + hubId.length) := by
      rw [jsIndexOfFrom, hdropB]
      exact findIdxMatchAux_of_decomp (js "/") hubId _ _ (by
        intro i hi
        rw [List.drop_append_of_le_length (by omega),
          List.drop_eq_getElem_cons hi]
        have hne : hubId[i] ≠ '/' := fun hc =>
          hslashfree (hc ▸ List.getElem_mem hi)
        simp [List.isPrefixOf, show js "/" = ['/'] from rfl,
          beq_false_of_ne (Ne.symm hne)])
    have hdropIdx : url.drop
        ((baseUri ++ js "/data-hubs/").length + hubId.length + 1) =
        pre ++ (js "zcaps/" ++ suffix) := by
      rw [hurl,
        show (baseUri ++ js "/data-hubs/") ++
            (hubId ++ (js "/" ++ (pre ++ (js "zcaps/" ++ suffix)))) =
          (((baseUri ++ js "/data-hubs/") ++ hubId) ++ js "/") ++
            (pre ++ (js "zcaps/" ++ suffix)) by simp [List.append_assoc]]
      exact drop_append_exact _ (by
        simp only [List.length_append, show (js "/").length = 1 from rfl])
    have h3 : jsIndexOfFrom url (js "zcaps/")
        ((baseUri ++ js "/data-hubs/").length + hubId.length + 1) =
        some ((baseUri ++ js "/data-hubs/").length + hubId.length + 1 +
          pre.length) := by
      rw [jsIndexOfFrom, hdropIdx]
      exact findIdxMatchAux_of_decomp (js "zcaps/") pre _ _ hmin
    have hpath : url.drop
        ((baseUri ++ js "/data-hubs/").length + hubId.length + 1 +
          pre.length + 6) = suffix := by
      have hsplit : url.drop
          ((baseUri ++ js "/data-hubs/").length + hubId.length + 1 +
            pre.length + 6) =
          (url.drop ((baseUri ++ js "/data-hubs/").length +
            hubId.length + 1)).drop (pre.length + 6) := by
        rw [List.drop_drop]
        congr 1
        try omega
      rw [hsplit, hdropIdx,
        show pre ++ (js "zcaps/" ++ suffix) =
          (pre ++ js "zcaps/") ++ suffix by simp [List.append_assoc],
        drop_append_exact _ (by
          simp only [List.length_append,
            show (js "zcaps/").length = 6 from rfl])]
    have hsub : jsSubstring url (baseUri ++ js "/data-hubs/").length
        ((baseUri ++ js "/data-hubs/").length + hubId.length) = hubId := by
      rw [jsSubstring, hdropB]
      exact take_append_exact _ (by omega)
    simp only [getInvocationTarget, h1, h2, h3, hpath, hsub]
    rw [if_pos (show suffix = js "documents" ∨ suffix = js "query" ∨
      suffix = js "authorizations" ∨
      (js "documents/").isPrefixOf suffix = true ∧ suffix.length > 10
      from hsuf)]
    subst ht hd
    simp [List.append_assoc]

/-- Concrete instance of the C5 characterization: the parser accepts
`B/data-hubs/h/zcaps/documents` against base `B` and produces the hub URL
and invocation target built from it. -/
theorem C5_invocation_target_iff_witness :
    getInvocationTarget (js "B") (js "B/data-hubs/h/zcaps/documents") =
      some (((js "B" ++ js "/data-hubs/") ++ js "h") ++ ('/' :: js "documents"),
        (js "B" ++ js "/data-hubs/") ++ js "h") :=
  (C5_invocation_target_iff (js "B") (js "B/data-hubs/h/zcaps/documents")
      (((js "B" ++ js "/data-hubs/") ++ js "h") ++ ('/' :: js "documents"))
      ((js "B" ++ js "/data-hubs/") ++ js "h")).mpr
    ⟨js "h", [], js "documents", by decide, by decide,
      fun i hi => absurd hi (Nat.not_lt_zero i), Or.inl rfl, rfl, rfl⟩

/-! ## C9: base58 round-trip machinery -/

/-- Decoding inverts encoding on each of the 58 digit values. -/
theorem charToDigit_digitToChar : ∀ d < 58, charToDigit (digitToChar d) = some d := by
  decide

/-- A nonzero digit never encodes to the leading-zero marker character. -/
theorem digitToChar_ne_one : ∀ d < 58, d ≠ 0 → digitToChar d ≠ '1' := by
  decide

/-- All digits produced by the fueled expansion are below the base. -/
theorem leDigits_lt {b : Nat} (hb : 2 ≤ b) :
    ∀ fuel n d, d ∈ leDigits b fuel n → d < b := by
  intro fuel
  induction fuel with
  | zero => intro n d hd; simp [leDigits] at hd
  | succ f ih =>
    intro n d hd
    by_cases hn : n = 0
    · simp [leDigits, hn] at hd
    · rw [show leDigits b (f + 1) n =
          if n = 0 then [] else n % b :: leDigits b f (n / b) from rfl,
        if_neg hn] at hd
      rcases List.mem_cons.mp hd with hd | hd
      · subst hd; exact Nat.mod_lt n (by omega)
      · exact ih (n / b) d hd

/-- The fuel is irrelevant as soon as it dominates the input. -/
theorem leDigits_fuel_irrel {b : Nat} (hb : 2 ≤ b) :
    ∀ f1 f2 n, n ≤ f1 → n ≤ f2 → leDigits b f1 n = leDigits b f2 n := by
  intro f1
  induction f1 with
  | zero =>
    intro f2 n h1 h2
    have hn : n = 0 := by omega
    subst hn
    cases f2 with
    | zero => rfl
    | succ g => simp [leDigits]
  | succ f ih =>
    intro f2 n h1 h2
    by_cases hn : n = 0
    · subst hn
      cases f2 with
      | zero => simp [leDigits]
      | succ g => simp [leDigits]
    · cases f2 with
      | zero => omega
      | succ g =>
        rw [show leDigits b (f + 1) n =
            if n = 0 then [] else n % b :: leDigits b f (n / b) from rfl,
          show leDigits b (g + 1) n =
            if n = 0 then [] else n % b :: leDigits b g (n / b) from rfl,
          if_neg hn, if_neg hn]
        have hdiv : n / b < n := Nat.div_lt_self (by omega) (by omega)
        rw [ih g (n / b) (by omega) (by omega)]

/-- The digit expansion evaluates back to its input. -/
theorem ofDigits_leDigits {b : Nat} (hb : 2 ≤ b) :
    ∀ fuel n, n ≤ fuel → ofDigitsLE b (leDigits b fuel n) = n := by
  intro fuel
  induction fuel with
  | zero =>
    intro n h
    have hn : n = 0 := by omega
    subst hn
    rfl
  | succ f ih =>
    intro n h
    by_cases hn : n = 0
    · subst hn; simp [leDigits, ofDigitsLE]
    · have hdiv : n / b < n := Nat.div_lt_self (by omega) (by omega)
      rw [show leDigits b (f + 1) n =
          if n = 0 then [] else n % b :: leDigits b f (n / b) from rfl,
        if_neg hn]
      show n % b + b * ofDigitsLE b (leDigits b f (n / b)) = n
      rw [ih (n / b) (by omega)]
      exact Nat.mod_add_div n b

/-- Round-trip, number side: digits of `n` re-evaluate to `n`. -/
theorem ofDigits_natDigits {b : Nat} (hb : 2 ≤ b) (n : Nat) :
    ofDigitsLE b (natDigitsLE b n) = n :=
  ofDigits_leDigits hb (n + 1) n (by omega)

/-- A digit list whose most-significant digit is nonzero has positive value. -/
theorem ofDigitsLE_pos {b : Nat} (hb : 1 ≤ b) :
    ∀ ds : List Nat, ds.getLast? ≠ some 0 → ds ≠ [] → 0 < ofDigitsLE b ds := by
  intro ds
  induction ds with
  | nil => intro _ h; exact absurd rfl h
  | cons d t ih =>
    intro hlast _
    cases t with
    | nil =>
      have hdne : d ≠ 0 := by simpa using hlast
      show 0 < d + b * ofDigitsLE b []
      have : ofDigitsLE b [] = 0 := rfl
      omega
    | cons e t' =>
      have hlast' : (e :: t').getLast? ≠ some 0 := by
        rwa [List.getLast?_cons_cons] at hlast
      have hpos := ih hlast' (by simp)
      show 0 < d + b * ofDigitsLE b (e :: t')
      have h2 : 0 < b * ofDigitsLE b (e :: t') := Nat.mul_pos (by omega) hpos
      omega

/-- Round-trip, digit side: a digit list with digits below the base and a
nonzero most-significant digit is recovered from its value. -/
theorem natDigits_ofDigits {b : Nat} (hb : 2 ≤ b) :
    ∀ ds : List Nat, (∀ d ∈ ds, d < b) → ds.getLast? ≠ some 0 →
      natDigitsLE b (ofDigitsLE b ds) = ds := by
  intro ds
  induction ds with
  | nil => intro _ _; rfl
  | cons d t ih =>
    intro hlt hlast
    have hd : d < b := hlt d (List.mem_cons_self d t)
    cases t with
    | nil =>
      have hdne : d ≠ 0 := by simpa using hlast
      show natDigitsLE b (d + b * ofDigitsLE b []) = [d]
      have hz : ofDigitsLE b [] = 0 := rfl
      rw [hz, Nat.mul_zero, Nat.add_zero]
      cases d with
      | zero => exact absurd rfl hdne
      | succ k =>
        show leDigits b (k + 1 + 1) (k + 1) = [k + 1]
        rw [show leDigits b (k + 1 + 1) (k + 1) =
            if k + 1 = 0 then []
            else (k + 1) % b :: leDigits b (k + 1) ((k + 1) / b) from rfl,
          if_neg (by omega), Nat.mod_eq_of_lt hd, Nat.div_eq_of_lt hd]
        cases k with
        | zero => rfl
        | succ m => rfl
    | cons e t' =>
      have hlast' : (e :: t').getLast? ≠ some 0 := by
        rwa [List.getLast?_cons_cons] at hlast
      have hltt : ∀ x ∈ e :: t', x < b :=
        fun x hx => hlt x (List.mem_cons_of_mem d hx)
      have hrec := ih hltt hlast'
      have hVpos : 0 < ofDigitsLE b (e :: t') :=
        ofDigitsLE_pos (by omega) (e :: t') hlast' (by simp)
      show natDigitsLE b (d + b * ofDigitsLE b (e :: t')) = d :: e :: t'
      generalize hV : ofDigitsLE b (e :: t') = V at hrec hVpos ⊢
      have hbV : 0 < b * V := Nat.mul_pos (by omega) hVpos
      show leDigits b (d + b * V + 1) (d + b * V) = d :: e :: t'
      rw [show leDigits b (d + b * V + 1) (d + b * V) =
          if d + b * V = 0 then []
          else (d + b * V) % b ::
            leDigits b (d + b * V) ((d + b * V) / b) from rfl,
        if_neg (by omega), Nat.add_mul_mod_self_left, Nat.mod_eq_of_lt hd,
        Nat.add_mul_div_left d V (show 0 < b by omega), Nat.div_eq_of_lt hd,
        Nat.zero_add]
      have hVle : V ≤ d + b * V := by
        have : V ≤ b * V := Nat.le_mul_of_pos_left V (by omega)
        omega
      rw [leDigits_fuel_irrel hb (d + b * V) (V + 1) V hVle (by omega)]
      rw [show leDigits b (V + 1) V = natDigitsLE b V from rfl, hrec]

/-- With positive input and enough fuel the expansion is nonempty. -/
theorem leDigits_ne_nil {b : Nat} :
    ∀ fuel n, 0 < n → n ≤ fuel → leDigits b fuel n ≠ [] := by
  intro fuel n h1 h2
  cases fuel with
  | zero => omega
  | succ f =>
    rw [show leDigits b (f + 1) n =
        if n = 0 then [] else n % b :: leDigits b f (n / b) from rfl,
      if_neg (by omega)]
    simp

/-- The most-significant digit of a positive number is nonzero. -/
theorem leDigits_getLast_ne_zero {b : Nat} (hb : 2 ≤ b) :
    ∀ fuel n, 0 < n → n ≤ fuel → (leDigits b fuel n).getLast? ≠ some 0 := by
  intro fuel
  induction fuel with
  | zero => intro n h1 h2; omega
  | succ f ih =>
    intro n h1 h2
    rw [show leDigits b (f + 1) n =
        if n = 0 then [] else n % b :: leDigits b f (n / b) from rfl,
      if_neg (by omega)]
    by_cases hq : n / b = 0
    · have htail : leDigits b f (n / b) = [] := by
        cases f with
        | zero => rfl
        | succ g => simp [leDigits, hq]
      rw [htail]
      have hnb : n < b := (Nat.div_eq_zero_iff (by omega)).mp hq
      have hmod : n % b = n := Nat.mod_eq_of_lt hnb
      intro hcon
      rw [List.getLast?_singleton] at hcon
      have : n % b = 0 := Option.some.inj hcon
      omega
    · have hdiv : n / b < n := Nat.div_lt_self (by omega) (by omega)
      have hq' : 0 < n / b := Nat.pos_of_ne_zero hq
      have htail := ih (n / b) hq' (by omega)
      have hne : leDigits b f (n / b) ≠ [] :=
        leDigits_ne_nil f (n / b) hq' (by omega)
      cases hl : leDigits b f (n / b) with
      | nil => exact absurd hl hne
      | cons x xs =>
        rw [List.getLast?_cons_cons]
        rw [hl] at htail
        exact htail

/-- Digits of `natDigitsLE` are below the base. -/
theorem natDigits_lt {b : Nat} (hb : 2 ≤ b) (n : Nat) :
    ∀ d ∈ natDigitsLE b n, d < b :=
  fun d hd => leDigits_lt hb (n + 1) n d hd

/-- `natDigitsLE` of a positive number ends in a nonzero digit. -/
theorem natDigits_getLast_ne_zero {b : Nat} (hb : 2 ≤ b) (n : Nat)
    (hn : 0 < n) : (natDigitsLE b n).getLast? ≠ some 0 :=
  leDigits_getLast_ne_zero hb (n + 1) n hn (by omega)

/-- Leading zeros do not change the big-endian accumulated value. -/
theorem foldl_replicate_zero (b : Nat) :
    ∀ z (ds : List Nat),
      (List.replicate z 0 ++ ds).foldl (fun acc d => acc * b + d) 0 =
        ds.foldl (fun acc d => acc * b + d) 0 := by
  intro z
  induction z with
  | zero => intro ds; rfl
  | succ k ih =>
    intro ds
    show ((0 : Nat) :: (List.replicate k 0 ++ ds)).foldl
        (fun acc d => acc * b + d) 0 = ds.foldl (fun acc d => acc * b + d) 0
    rw [List.foldl_cons]
    have h0 : (0 : Nat) * b + 0 = 0 := by omega
    rw [h0]
    exact ih ds

/-- Big-endian folding is little-endian evaluation of the reverse. -/
theorem foldr_swap_ofDigits (b : Nat) :
    ∀ ds : List Nat, ds.foldr (fun x y => y * b + x) 0 = ofDigitsLE b ds := by
  intro ds
  induction ds with
  | nil => rfl
  | cons d t ih =>
    show t.foldr (fun x y => y * b + x) 0 * b + d = d + b * ofDigitsLE b t
    rw [ih, Nat.mul_comm]
    omega

theorem foldl_reverse_ofDigits (b : Nat) (ds : List Nat) :
    ds.reverse.foldl (fun acc d => acc * b + d) 0 = ofDigitsLE b ds := by
  rw [List.foldl_reverse]
  exact foldr_swap_ofDigits b ds

/-- `bytesToNat` as little-endian evaluation of the reversed byte list. -/
theorem bytesToNat_eq_ofDigits (bs : List Nat) :
    bytesToNat bs = ofDigitsLE 256 bs.reverse := by
  have h := foldl_reverse_ofDigits 256 bs.reverse
  rw [List.reverse_reverse] at h
  exact h

/-- `mapOpt` distributes over append on the success path. -/
theorem mapOpt_append {α β : Type} {f : α → Option β} :
    ∀ {l1 : List α} {l2 : List α} {r1 r2 : List β},
      mapOpt f l1 = some r1 → mapOpt f l2 = some r2 →
        mapOpt f (l1 ++ l2) = some (r1 ++ r2) := by
  intro l1
  induction l1 with
  | nil =>
    intro l2 r1 r2 h1 h2
    have hr1 : r1 = [] := by
      have h1' : some ([] : List β) = some r1 := h1
      exact (Option.some.inj h1').symm
    subst hr1
    simpa using h2
  | cons a t ih =>
    intro l2 r1 r2 h1 h2
    show (match f a, mapOpt f (t ++ l2) with
      | some bv, some r => some (bv :: r)
      | _, _ => none) = some (r1 ++ r2)
    have h1' : (match f a, mapOpt f t with
      | some bv, some r => some (bv :: r)
      | _, _ => none) = some r1 := h1
    cases hfa : f a with
    | none => rw [hfa] at h1'; exact absurd h1' (by simp)
    | some bv =>
      rw [hfa] at h1'
      cases hmt : mapOpt f t with
      | none => rw [hmt] at h1'; exact absurd h1' (by simp)
      | some rt =>
        rw [hmt] at h1'
        have hr1 : bv :: rt = r1 := Option.some.inj h1'
        subst hr1
        rw [ih hmt h2]
        rfl

/-- One-step unfolding of `mapOpt` on a cons cell. -/
theorem mapOpt_cons_eq {α β : Type} (f : α → Option β) (a : α) (l : List α) :
    mapOpt f (a :: l) = match f a, mapOpt f l with
      | some bv, some r => some (bv :: r)
      | _, _ => none := by
  simp only [mapOpt]
  rfl

/-- Decoding a run of `'1'`s yields a run of zero digits. -/
theorem mapOpt_replicate_one :
    ∀ z, mapOpt charToDigit (List.replicate z '1') =
      some (List.replicate z 0) := by
  intro z
  induction z with
  | zero => rfl
  | succ k ih =>
    rw [List.replicate_succ, List.replicate_succ, mapOpt_cons_eq, ih,
      show charToDigit '1' = some 0 from rfl]

/-- Decoding inverts digit-wise encoding of any below-base digit list. -/
theorem mapOpt_map_digitToChar :
    ∀ l : List Nat, (∀ d ∈ l, d < 58) →
      mapOpt charToDigit (l.map digitToChar) = some l := by
  intro l
  induction l with
  | nil => intro _; rfl
  | cons d t ih =>
    intro h
    have hd : d < 58 := h d (List.mem_cons_self d t)
    have ht := ih (fun x hx => h x (List.mem_cons_of_mem d hx))
    rw [List.map_cons, mapOpt_cons_eq, ht, charToDigit_digitToChar d hd]

/-- Counting a leading run through `takeWhile`. -/
theorem takeWhile_length_replicate {α : Type} {p : α → Bool} {a : α}
    (hpa : p a = true) :
    ∀ z (l : List α), (∀ x t, l = x :: t → p x = false) →
      ((List.replicate z a ++ l).takeWhile p).length = z := by
  intro z
  induction z with
  | zero =>
    intro l hl
    cases l with
    | nil => rfl
    | cons x t =>
      show ((x :: t).takeWhile p).length = 0
      rw [List.takeWhile_cons, hl x t rfl]
      rfl
  | succ k ih =>
    intro l hl
    show ((a :: (List.replicate k a ++ l)).takeWhile p).length = k + 1
    rw [List.takeWhile_cons, hpa]
    show ((List.replicate k a ++ l).takeWhile p).length + 1 = k + 1
    rw [ih l hl]

/-- The leading-zero run of a byte list is literally a `replicate`. -/
theorem takeWhile_zero_eq_replicate :
    ∀ bs : List Nat, bs.takeWhile (fun x => x = 0) =
      List.replicate (bs.takeWhile (fun x => x = 0)).length 0 := by
  intro bs
  induction bs with
  | nil => rfl
  | cons x t ih =>
    by_cases hx : x = 0
    · subst hx
      rw [List.takeWhile_cons,
        if_pos (show decide ((0 : Nat) = 0) = true from rfl),
        List.length_cons, List.replicate_succ]
      exact congrArg (0 :: ·) ih
    · rw [List.takeWhile_cons,
        if_neg (show ¬decide (x = 0) = true from by simp [hx])]
      rfl

/-- The first element surviving `dropWhile` falsifies the predicate. -/
theorem dropWhile_head_not {α : Type} {p : α → Bool} :
    ∀ (l : List α) x t, l.dropWhile p = x :: t → p x = false := by
  intro l
  induction l with
  | nil => intro x t h; simp [List.dropWhile] at h
  | cons a s ih =>
    intro x t h
    rw [List.dropWhile_cons] at h
    by_cases ha : p a = true
    · rw [if_pos ha] at h; exact ih x t h
    · rw [if_neg ha] at h
      cases h
      exact Bool.eq_false_iff.mpr ha

/-- base58 round-trip on a byte list written as a run of leading zero bytes
followed by a block that does not start with a zero byte. -/
theorem b58_roundtrip_aux (z : Nat) :
    ∀ bs' : List Nat, (∀ x ∈ bs', x < 256) →
      (∀ x t, bs' = x :: t → x ≠ 0) →
      b58decode (b58encode (List.replicate z 0 ++ bs')) =
        some (List.replicate z 0 ++ bs') := by
  intro bs' hlt hhead
  cases bs' with
  | nil =>
    have htw : ((List.replicate z 0 ++ ([] : List Nat)).takeWhile
        (fun x => x = 0)).length = z :=
      takeWhile_length_replicate rfl z [] (fun x t h => by simp at h)
    have h0 : bytesToNat (List.replicate z 0 ++ ([] : List Nat)) = 0 := by
      have h := foldl_replicate_zero 256 z []
      exact h
    have henc : b58encode (List.replicate z 0 ++ ([] : List Nat)) =
        List.replicate z '1' := by
      unfold b58encode
      rw [htw, h0, show natDigitsLE 58 0 = [] from rfl]
      simp
    have htw1 : ((List.replicate z '1' ++ ([] : List Char)).takeWhile
        (fun c => c = '1')).length = z :=
      takeWhile_length_replicate rfl z [] (fun x t h => by simp at h)
    rw [List.append_nil] at htw1
    have hfold : (List.replicate z 0).foldl (fun acc d => acc * 58 + d) 0 = 0 := by
      have h := foldl_replicate_zero 58 z []
      rw [List.append_nil] at h
      exact h
    rw [henc]
    simp only [b58decode]
    rw [mapOpt_replicate_one z]
    show some (List.replicate ((List.replicate z '1').takeWhile
        (fun c => c = '1')).length 0 ++
      natToBytesBE ((List.replicate z 0).foldl (fun acc d => acc * 58 + d) 0)) =
      some (List.replicate z 0 ++ [])
    rw [htw1, hfold, show natToBytesBE 0 = [] from rfl, List.append_nil]
  | cons h0 t0 =>
    have hh0 : h0 ≠ 0 := hhead h0 t0 rfl
    have htw : ((List.replicate z 0 ++ (h0 :: t0)).takeWhile
        (fun x => x = 0)).length = z :=
      takeWhile_length_replicate rfl z (h0 :: t0)
        (fun x t h => by
          injection h with h1 h2
          exact decide_eq_false (by rw [← h1]; exact hh0))
    have hVz : bytesToNat (List.replicate z 0 ++ (h0 :: t0)) =
        bytesToNat (h0 :: t0) := foldl_replicate_zero 256 z (h0 :: t0)
    have hVof : bytesToNat (h0 :: t0) = ofDigitsLE 256 (h0 :: t0).reverse :=
      bytesToNat_eq_ofDigits (h0 :: t0)
    have hrevlast : (h0 :: t0).reverse.getLast? = some h0 := by
      rw [List.getLast?_reverse]
      rfl
    have hrevlast' : (h0 :: t0).reverse.getLast? ≠ some 0 := by
      rw [hrevlast]
      simp [hh0]
    have hVpos : 0 < bytesToNat (h0 :: t0) := by
      rw [hVof]
      exact ofDigitsLE_pos (by omega) (h0 :: t0).reverse hrevlast' (by simp)
    have hdlt : ∀ d ∈ natDigitsLE 58 (bytesToNat (h0 :: t0)), d < 58 :=
      natDigits_lt (by omega) _
    have hdlast : (natDigitsLE 58 (bytesToNat (h0 :: t0))).getLast? ≠
        some 0 := natDigits_getLast_ne_zero (by omega) _ hVpos
    have henc : b58encode (List.replicate z 0 ++ (h0 :: t0)) =
        List.replicate z '1' ++
          ((natDigitsLE 58 (bytesToNat (h0 :: t0))).reverse.map
            digitToChar) := by
      unfold b58encode
      rw [htw, hVz]
    have hheadtl : ∀ x t, (natDigitsLE 58 (bytesToNat (h0 :: t0))).reverse.map
        digitToChar = x :: t → (fun c => decide (c = '1')) x = false := by
      intro x t hxt
      cases hrev : (natDigitsLE 58 (bytesToNat (h0 :: t0))).reverse with
      | nil => rw [hrev] at hxt; simp at hxt
      | cons y ys =>
        rw [hrev, List.map_cons] at hxt
        injection hxt with hx hxs
        have hymem : y ∈ natDigitsLE 58 (bytesToNat (h0 :: t0)) := by
          have hmy : y ∈ (natDigitsLE 58 (bytesToNat (h0 :: t0))).reverse := by
            rw [hrev]; exact List.mem_cons_self y ys
          exact List.mem_reverse.mp hmy
        have hylt : y < 58 := hdlt y hymem
        have hyne : y ≠ 0 := by
          have hq : (natDigitsLE 58 (bytesToNat (h0 :: t0))).reverse.head? =
              some y := by rw [hrev]; rfl
          rw [List.head?_reverse] at hq
          intro hy0
          subst hy0
          exact hdlast hq
        have hne1 : digitToChar y ≠ '1' := digitToChar_ne_one y hylt hyne
        rw [← hx]
        exact decide_eq_false hne1
    have htw1 : ((List.replicate z '1' ++
        (natDigitsLE 58 (bytesToNat (h0 :: t0))).reverse.map
          digitToChar).takeWhile (fun c => c = '1')).length = z :=
      takeWhile_length_replicate rfl z _ hheadtl
    have hmap : mapOpt charToDigit (List.replicate z '1' ++
        (natDigitsLE 58 (bytesToNat (h0 :: t0))).reverse.map digitToChar) =
      some (List.replicate z 0 ++
        (natDigitsLE 58 (bytesToNat (h0 :: t0))).reverse) :=
      mapOpt_append (mapOpt_replicate_one z)
        (mapOpt_map_digitToChar _
          (fun d hd => hdlt d (List.mem_reverse.mp hd)))
    have hfold : (List.replicate z 0 ++
        (natDigitsLE 58 (bytesToNat (h0 :: t0))).reverse).foldl
          (fun acc d => acc * 58 + d) 0 = bytesToNat (h0 :: t0) := by
      rw [foldl_replicate_zero 58 z _, foldl_reverse_ofDigits 58 _,
        ofDigits_natDigits (show (2 : Nat) ≤ 58 by omega)]
    have hbytes : natToBytesBE (bytesToNat (h0 :: t0)) = h0 :: t0 := by
      show (natDigitsLE 256 (bytesToNat (h0 :: t0))).reverse = h0 :: t0
      rw [hVof, natDigits_ofDigits (show (2 : Nat) ≤ 256 by omega)
          (h0 :: t0).reverse (fun x hx => hlt x (List.mem_reverse.mp hx))
          hrevlast',
        List.reverse_reverse]
    rw [henc]
    simp only [b58decode]
    rw [hmap]
    show some (List.replicate ((List.replicate z '1' ++
        (natDigitsLE 58 (bytesToNat (h0 :: t0))).reverse.map
          digitToChar).takeWhile (fun c => c = '1')).length 0 ++
      natToBytesBE ((List.replicate z 0 ++
        (natDigitsLE 58 (bytesToNat (h0 :: t0))).reverse).foldl
          (fun acc d => acc * 58 + d) 0)) =
      some (List.replicate z 0 ++ (h0 :: t0))
    rw [htw1, hfold, hbytes]

/-- The base58 codec round-trips on every byte list. -/
theorem b58_roundtrip (bs : List Nat) (h : ∀ x ∈ bs, x < 256) :
    b58decode (b58encode bs) = some bs := by
  have hsplit : List.replicate ((bs.takeWhile (fun x => x = 0)).length) 0 ++
      bs.dropWhile (fun x => x = 0) = bs := by
    rw [← takeWhile_zero_eq_replicate bs]
    exact List.takeWhile_append_dropWhile _ _
  have hmem : ∀ x ∈ bs.dropWhile (fun x => x = 0), x < 256 := by
    intro x hx
    exact h x (List.Sublist.subset (List.dropWhile_sublist _) hx)
  have hhd : ∀ x t, bs.dropWhile (fun x => x = 0) = x :: t → x ≠ 0 := by
    intro x t hx
    exact of_decide_eq_false (dropWhile_head_not bs x t hx)
  have haux := b58_roundtrip_aux ((bs.takeWhile (fun x => x = 0)).length)
    (bs.dropWhile (fun x => x = 0)) hmem hhd
  rw [hsplit] at haux
  exact haux

/-- C9, amended: every generated identifier begins with the multibase
indicator `'z'` and its base58 remainder decodes to exactly the 18 bytes
`0x00 0x10 <payload>`, so the validator accepts every generated identifier;
but the validator checks only the length and the two header bytes, so
re-encoding the 18-byte buffer with one bit flipped is rejected precisely
when the flip falls in byte 0 or byte 1 — a flip in any of the 16 payload
bytes (positions 2-17) yields a distinct identifier that still validates. -/
theorem C9_id_roundtrip (bytes : List Nat) (hlen : bytes.length = 16)
    (hlt : ∀ x ∈ bytes, x < 256) :
    (generateRandom bytes).head? = some 'z' ∧
    b58decode ((generateRandom bytes).drop 1) = some (0 :: 16 :: bytes) ∧
    assert128BitId (generateRandom bytes) = true ∧
    (∀ i, i < 18 → ∀ j, j < 8 →
      (assert128BitId ('z' :: b58encode (flipBit (0 :: 16 :: bytes) i j)) =
          true ↔ 2 ≤ i)) := by
  have hall : ∀ x ∈ (0 : Nat) :: 16 :: bytes, x < 256 := by
    intro x hx
    rcases List.mem_cons.mp hx with h1 | hx
    · omega
    rcases List.mem_cons.mp hx with h1 | hx
    · omega
    · exact hlt x hx
  have hdec : b58decode (b58encode ((0 : Nat) :: 16 :: bytes)) =
      some (0 :: 16 :: bytes) := b58_roundtrip _ hall
  refine ⟨rfl, hdec, ?_, ?_⟩
  · simp only [assert128BitId, List.drop_succ_cons, List.drop_zero,
      generateRandom]
    rw [hdec]
    simp [List.getD, hlen]
  · intro i hi j hj
    have h2jle : (2 : Nat) ^ j ≤ 2 ^ 7 := Nat.pow_le_pow_right (by omega)
      (by omega)
    have h2j : (2 : Nat) ^ j < 256 := by
      have h7 : (2 : Nat) ^ 7 = 128 := by norm_num
      omega
    have hfl_lt : ∀ x ∈ flipBit ((0 : Nat) :: 16 :: bytes) i j, x < 256 := by
      intro x hx
      rcases List.mem_or_eq_of_mem_set hx with hx | hx
      · exact hall x hx
      · subst hx
        have hib : i < ((0 : Nat) :: 16 :: bytes).length := by
          simp [hlen]
          omega
        have hgd : ((0 : Nat) :: 16 :: bytes).getD i 0 < 256 := by
          rw [List.getD_eq_getElem _ _ hib]
          exact hall _ (List.getElem_mem hib)
        have hgd' : ((0 : Nat) :: 16 :: bytes).getD i 0 < 2 ^ 8 := by
          simpa using hgd
        have h2j' : (2 : Nat) ^ j < 2 ^ 8 := by simpa using h2j
        have hxor := Nat.xor_lt_two_pow hgd' h2j'
        simpa using hxor
    have hdecfl := b58_roundtrip _ hfl_lt
    rcases i with _ | i1
    · have hfl0 : flipBit ((0 : Nat) :: 16 :: bytes) 0 j =
          ((0 : Nat) ^^^ 2 ^ j) :: 16 :: bytes := rfl
      have hz : (0 : Nat) ^^^ 2 ^ j = 2 ^ j := Nat.zero_xor _
      rw [hfl0, hz] at hdecfl
      have hpjne : (2 : Nat) ^ j ≠ 0 := Nat.pos_iff_ne_zero.mp
        (pow_pos (by omega) j)
      simp only [assert128BitId, List.drop_succ_cons, List.drop_zero]
      rw [hfl0, hz, hdecfl]
      simp [List.getD, hpjne]
    rcases i1 with _ | i2
    · have hfl1 : flipBit ((0 : Nat) :: 16 :: bytes) 1 j =
          (0 : Nat) :: ((16 : Nat) ^^^ 2 ^ j) :: bytes := rfl
      rw [hfl1] at hdecfl
      have hne : ∀ jj, jj < 8 → ¬((16 : Nat) ^^^ 2 ^ jj = 16) := by decide
      have h16 := hne j hj
      simp only [assert128BitId, List.drop_succ_cons, List.drop_zero]
      rw [hfl1, hdecfl]
      simp [List.getD, h16]
    · have hfl2 : flipBit ((0 : Nat) :: 16 :: bytes) (i2 + 2) j =
          (0 : Nat) :: (16 : Nat) ::
            (bytes.set i2 (bytes.getD i2 0 ^^^ 2 ^ j)) := rfl
      rw [hfl2] at hdecfl
      simp only [assert128BitId, List.drop_succ_cons, List.drop_zero]
      rw [hfl2, hdecfl]
      simp [List.getD, List.length_set, hlen]

/-- Concrete instance of the C9 characterization at the all-zero payload. -/
theorem C9_id_roundtrip_witness :
    ((List.replicate 16 (0 : Nat)).length = 16 ∧
      (∀ x ∈ List.replicate 16 (0 : Nat), x < 256)) ∧
    ((generateRandom (List.replicate 16 0)).head? = some 'z' ∧
      b58decode ((generateRandom (List.replicate 16 0)).drop 1) =
        some (0 :: 16 :: List.replicate 16 0) ∧
      assert128BitId (generateRandom (List.replicate 16 0)) = true ∧
      (∀ i, i < 18 → ∀ j, j < 8 →
        (assert128BitId ('z' :: b58encode
            (flipBit (0 :: 16 :: List.replicate 16 0) i j)) = true ↔
          2 ≤ i))) :=
  ⟨⟨by decide, by decide⟩,
    C9_id_roundtrip (List.replicate 16 0) (by decide) (by decide)⟩

end DataHub
